import Mathlib

/-!
# vegetaui: attack lifecycle controller and broadcast hub

A shallow embedding of `src/vegetaui/vegeta.go` and `src/vegetaui/websocket.go`.

* The singleton `instance` is the record `vegetaAttack`; it lives in a `World` together
  with the objects it points to (the `WsConnection` mailboxes, the attackers, the running
  `startAttack` goroutines).
* Every `case` of the `select` in `initVegeta` is one handler function on `World`.
* `startAttack` is a small program counter machine (`PC`), one step per blocking point or
  shared-memory access group, so that the other goroutines can be interleaved with it.
* Go `int` is `Int`, `uint32` is `Nat` reduced modulo `2^32`, `[]byte` is `String`.
* A run-time panic and the `return` of the coordinator goroutine are explicit outcomes.
* The external libraries (`encoding/json`, the vegeta metrics accumulator) are a parameter
  of type `Library`.
* A `float64` is the rational it denotes (or a NaN or an infinity) and its arithmetic
  rounds to 53 bits; `strconv.FormatFloat` follows its documentation.
-/

namespace VegetaUI

/-! ## Constants (vegeta.go 17-31, websocket.go 16-33) -/

def AttackStatusCodeNotStarted : Int := 0
def AttackStatusMsgNotStarted : String := "NotStarted"
def AttackStatusCodeInProgress : Int := 1
def AttackStatusMsgInProgress : String := "InProgress"
def AttackStatusCodeCompleted : Int := 2
def AttackStatusMsgCompleted : String := "Completed"
def AttackStatusCodeCancelled : Int := 3
def AttackStatusMsgCancelled : String := "Cancelled"

def MessageGetTestStatus : String := "getStatus"
def MessageCancelTest : String := "cancelTest"

/-- Capacity of the `Send` channel of every `WsConnection` (websocket.go 53). -/
def sendBufferSize : Nat := 256

/-- Conversion of a Go integer to `uint32`: the low 32 bits. -/
def toUint32 (x : Int) : Nat := (x % 2 ^ 32).toNat

/-- Wrap-around of Go `int` (64 bit, two's complement) arithmetic. -/
def wrapInt64 (x : Int) : Int := (x + 2 ^ 63) % 2 ^ 64 - 2 ^ 63

/-- One second and one millisecond as `time.Duration` values (nanoseconds). -/
def timeSecond : Int := 1000000000
def timeMillisecond : Int := 1000000

/-! ## Data model -/

/-- The wire entity `LoadTestStatus` (vegeta.go 445-469). -/
structure LoadTestStatus where
  Status : String
  Elapsed : Nat
  RequestsCompleted : Nat
  TotalRequests : Nat
  SuccessRate : String
  P50 : Nat
  P95 : Nat
  P99 : Nat
deriving DecidableEq, Repr

/-- The Go zero value of `LoadTestStatus`. -/
def LoadTestStatus.zero : LoadTestStatus :=
  { Status := "", Elapsed := 0, RequestsCompleted := 0, TotalRequests := 0,
    SuccessRate := "", P50 := 0, P95 := 0, P99 := 0 }

/-- One request outcome of the engine, `vegeta.Result`. -/
structure vegeta.Result where
  Code : Nat
  Timestamp : Int
  Latency : Int
  BytesOut : Nat
  BytesIn : Nat
  Error : String
deriving DecidableEq, Repr

/-- The metrics accumulator `vegeta.Metrics` as `startAttack` uses it: the outcomes given to
`Add` so far (oldest first) and whether `Close` was called. -/
structure vegeta.Metrics where
  added : List vegeta.Result
  closed : Bool
deriving DecidableEq, Repr

/-- The counter `Metrics.Requests` (a `uint64` incremented by every `Add`). -/
def vegeta.Metrics.Requests (m : vegeta.Metrics) : Nat := m.added.length % 2 ^ 64

/-- The call `Metrics.Add(res)`. -/
def vegeta.Metrics.Add (m : vegeta.Metrics) (res : vegeta.Result) : vegeta.Metrics :=
  { m with added := m.added ++ [res] }

/-- The call `Metrics.Close()`. -/
def vegeta.Metrics.Close (m : vegeta.Metrics) : vegeta.Metrics :=
  { m with closed := true }

/-! ## Floating point (vegeta.go 266)

A `float64` is the rational it denotes, or a special value; arithmetic rounds the exact
result to the nearest value with a 53-bit significand, ties to even. -/

/-- A `float64` value: a finite number, given as the rational it denotes, a NaN or an
infinity. Negative zero is not distinguished from zero. -/
inductive Float64 where
  | finite (q : ℚ)
  | nan
  | inf (negative : Bool)
deriving DecidableEq, Repr

/-- The nearest integer, ties to the even one. -/
def roundHalfEven (q : ℚ) : ℤ :=
  let f := ⌊q⌋
  if q - f < 1 / 2 then f
  else if 1 / 2 < q - f then f + 1
  else if f % 2 = 0 then f else f + 1

/-- The unit in the last place of a `float64` of magnitude `a > 0`: `2^(e-52)` in the
binade `2^e ≤ a < 2^(e+1)`, and `2^-1074` in the subnormal range. -/
def float64Ulp (a : ℚ) : ℚ := (2 : ℚ) ^ (max (Int.log 2 a - 52) (-1074))

/-- The `float64` that an operation with exact result `q` returns: `q` rounded to the
nearest multiple of the unit in the last place, ties to even, or an infinity when the
rounded magnitude reaches `2^1024`. -/
def float64Round (q : ℚ) : Float64 :=
  if q = 0 then .finite 0
  else
    let r := (roundHalfEven (|q| / float64Ulp |q|) : ℚ) * float64Ulp |q|
    if (2 : ℚ) ^ 1024 ≤ r then .inf (decide (q < 0))
    else .finite (if q < 0 then -r else r)

/-- The Go expression `x * y` on `float64` operands. -/
def Float64.mul : Float64 → Float64 → Float64
  | .finite a, .finite b => float64Round (a * b)
  | .finite a, .inf t => if a = 0 then .nan else .inf (xor (decide (a < 0)) t)
  | .inf s, .finite b => if b = 0 then .nan else .inf (xor s (decide (b < 0)))
  | .inf s, .inf t => .inf (xor s t)
  | _, _ => .nan

/-- The decimal numeral of `n / 10^prec` with `prec` digits after the decimal point. -/
def fixedDigits (n prec : Nat) : String :=
  toString (n / 10 ^ prec) ++
    (if prec = 0 then ""
     else "." ++ String.mk
       ((List.range prec).reverse.map (fun i => Nat.digitChar (n / 10 ^ i % 10))))

/-- The library call `strconv.FormatFloat(f, 'f', prec, 64)`, from its documentation: the
format `-ddd.dddd` without exponent, with `prec` digits after the decimal point; the
digits are those of the exact value of `f` rounded to `prec` decimals, to nearest and ties
to even. The special values print as "NaN", "+Inf" and "-Inf". -/
def strconv.FormatFloat : Float64 → Nat → String
  | .nan, _ => "NaN"
  | .inf false, _ => "+Inf"
  | .inf true, _ => "-Inf"
  | .finite q, prec =>
    (if q < 0 then "-" else "") ++
      fixedDigits (roundHalfEven (|q| * 10 ^ prec)).toNat prec

/-- What the code takes from libraries outside the repository.
`MarshalIndent` is `json.MarshalIndent(&newStatus, "", "  ")`; the other fields are the
aggregates that a closed `vegeta.Metrics` exposes for the outcomes it was given:
`Duration` and the latency percentiles in nanoseconds, and `Success`, the ratio of
successful requests as a `float64`. -/
structure Library where
  MarshalIndent : LoadTestStatus → Except String String
  Duration : List vegeta.Result → Int
  Success : List vegeta.Result → Float64
  P50 : List vegeta.Result → Int
  P95 : List vegeta.Result → Int
  P99 : List vegeta.Result → Int
  /-- The largest capacity that `make(vegeta.Results, 0, n)` accepts. -/
  MaxSliceCap : Int

/-- The buffered channel `WsConnection.Send`: queued messages (oldest first) and whether
the channel was closed. Its capacity is `sendBufferSize`. -/
structure Chan where
  buf : List String
  closed : Bool
deriving DecidableEq, Repr

/-- The parameters of `startAttack` (vegeta.go 172-173). -/
structure AttackParams where
  targetURL : String
  attackMethod : String
  body : String
  requestsPerSecond : Int
  duration : Int
  timeout : Int
  workers : Int
  differentConnections : Bool
  ignoreInvalidCert : Bool
deriving DecidableEq, Repr

/-- The struct `vegetaAttack` (vegeta.go 36-85). Pointers are indices: a `*WsConnection`
is an index into `World.sockets`, a `*vegeta.Attacker` the number of the attacker.
`Cancel` holds the values that goroutines are blocked sending on the unbuffered channel. -/
structure vegetaAttack where
  status : Int
  elapsed : Nat
  CompletedRequests : Nat
  TotalRequests : Nat
  Metrics : Option vegeta.Metrics
  Cancel : List Bool
  CurrentAttacker : Option Nat
  Connections : List Nat
  CurrentResults : List vegeta.Result
  FinalMetrics : LoadTestStatus
deriving DecidableEq, Repr

/-- Where a `startAttack` goroutine stands. -/
inductive PC where
  /-- Called, line 175 not yet executed. -/
  | entry
  /-- Line 175 executed, `currentStatus` holds what was read. -/
  | checked (currentStatus : Int)
  /-- Lines 183-194 executed: the deferred call is registered, the counters are reset. -/
  | accepted
  /-- Inside the loop of lines 243-247, with the local slice `results`. -/
  | attacking (attacker : Nat) (results : List vegeta.Result)
  /-- Blocked in the send of line 277. -/
  | sending (finalLoadTestStatus : LoadTestStatus)
  /-- The send of line 277 is done, the deferred call of line 183 is pending. -/
  | returning
  /-- Returned. -/
  | done
deriving DecidableEq, Repr

/-- One invocation of `startAttack`. -/
structure Runner where
  params : AttackParams
  pc : PC
deriving DecidableEq, Repr

/-- The process: the singleton, the `WsConnection` objects created so far (index = pointer,
value = its `Send` channel), the number of attackers created, the receivers of the `Stop()`
calls made so far, and the `startAttack` goroutines. -/
structure World where
  inst : vegetaAttack
  sockets : List Chan
  attackers : Nat
  stopped : List (Option Nat)
  runners : List Runner
deriving DecidableEq, Repr

/-- Result of running a piece of code: it completes, the goroutine logs an error and
returns, or the process panics. -/
inductive Outcome (σ : Type) where
  | ok (s : σ)
  | exit (err : String)
  | panic (msg : String)
deriving DecidableEq, Repr

/-- Sequencing of outcomes. -/
def Outcome.bind {σ τ : Type} (o : Outcome σ) (f : σ → Outcome τ) : Outcome τ :=
  match o with
  | .ok s => f s
  | .exit e => .exit e
  | .panic m => .panic m

/-- The singleton at process start (vegeta.go 161-169). -/
def instance0 : vegetaAttack :=
  { status := 0, elapsed := 0, CompletedRequests := 0, TotalRequests := 0,
    Metrics := none, Cancel := [], CurrentAttacker := none, Connections := [],
    CurrentResults := [], FinalMetrics := LoadTestStatus.zero }

/-- The process at start. -/
def World.init : World :=
  { inst := instance0, sockets := [], attackers := 0, stopped := [], runners := [] }

/-! ## Accessors of `vegetaAttack` (vegeta.go 87-158) -/

def vegetaAttack.getStatus (v : vegetaAttack) : Int := v.status

def vegetaAttack.setStatus (v : vegetaAttack) (newStatus : Int) : vegetaAttack :=
  { v with status := newStatus }

def getStatusMsg (statusCode : Int) : String :=
  if statusCode = AttackStatusCodeNotStarted then AttackStatusMsgNotStarted
  else if statusCode = AttackStatusCodeInProgress then AttackStatusMsgInProgress
  else if statusCode = AttackStatusCodeCompleted then AttackStatusMsgCompleted
  else if statusCode = AttackStatusCodeCancelled then AttackStatusMsgCancelled
  else AttackStatusMsgNotStarted

def vegetaAttack.getCurrentAttacker (v : vegetaAttack) : Option Nat := v.CurrentAttacker

def vegetaAttack.setCurrentAttacker (v : vegetaAttack) (vegetaAttacker : Option Nat) :
    vegetaAttack :=
  { v with CurrentAttacker := vegetaAttacker }

def vegetaAttack.getLatestVegetaMetrics (v : vegetaAttack) : LoadTestStatus := v.FinalMetrics

def vegetaAttack.setLatestVegetaMetrics (v : vegetaAttack) (latestMetrics : LoadTestStatus) :
    vegetaAttack :=
  { v with FinalMetrics := latestMetrics }

def vegetaAttack.getCurrentResults (v : vegetaAttack) : List vegeta.Result :=
  [] ++ v.CurrentResults

def vegetaAttack.setCurrentResults (v : vegetaAttack) (latestResults : List vegeta.Result) :
    vegetaAttack :=
  { v with CurrentResults := [] ++ latestResults }

/-! ## The registry and the mailboxes -/

/-- The statement `close(c.Send)`: closing a closed channel panics. -/
def closeSend (c : Nat) (w : World) : Outcome World :=
  match w.sockets[c]? with
  | none => .panic "invalid memory address or nil pointer dereference"
  | some ch =>
    if ch.closed then .panic "close of closed channel"
    else .ok { w with sockets := w.sockets.set c { ch with closed := true } }

/-- The statement `delete(instance.Connections, c)`. -/
def deleteConnection (c : Nat) (w : World) : World :=
  { w with inst := { w.inst with Connections := w.inst.Connections.filter (fun d => d ≠ c) } }

/-- The body of the `for c := range instance.Connections` loops (vegeta.go 402-407 and
434-440): a non-blocking send of `content` on `c.Send`, and in the `default` case, taken
when the buffer is full, `close(c.Send)` followed by `delete(instance.Connections, c)`.
Sending on a closed channel panics. -/
def sendOrEvict (content : String) (c : Nat) (w : World) : Outcome World :=
  match w.sockets[c]? with
  | none => .panic "invalid memory address or nil pointer dereference"
  | some ch =>
    if ch.closed then .panic "send on closed channel"
    else if ch.buf.length < sendBufferSize then
      .ok { w with sockets := w.sockets.set c { ch with buf := ch.buf ++ [content] } }
    else
      (closeSend c w).bind (fun w1 => .ok (deleteConnection c w1))

/-- Iteration over the keys a map holds when the loop starts. The body deletes no key
other than the one it is visiting, so every key of the snapshot is visited. -/
def rangeConnections (body : Nat → World → Outcome World) : List Nat → World → Outcome World
  | [], w => .ok w
  | c :: cs, w => (body c w).bind (rangeConnections body cs)

/-- The loop of vegeta.go 433-441 (and 401-408). -/
def broadcast (content : String) (w : World) : Outcome World :=
  rangeConnections (sendOrEvict content) w.inst.Connections w

/-- The function `publishStatusToOpenSockets` (vegeta.go 423-443); its callers log a
returned error and return, which is the outcome `exit`. -/
def publishStatusToOpenSockets (lib : Library) (newStatus : LoadTestStatus) (w : World) :
    Outcome World :=
  match lib.MarshalIndent newStatus with
  | .error err => .exit err
  | .ok content => broadcast content w

/-! ## The cases of the coordinator loop (vegeta.go 323-417) -/

/-- The case `<-attackTicker.C` (vegeta.go 325-359). -/
def handleTick (lib : Library) (ok : Bool) (w : World) : Outcome World :=
  let currentStatus := w.inst.getStatus
  if currentStatus = AttackStatusCodeInProgress then
    let newValue := (w.inst.elapsed + 1) % 2 ^ 32
    let w1 : World := { w with inst := { w.inst with elapsed := newValue } }
    let status := if !ok then AttackStatusCodeCompleted else AttackStatusCodeInProgress
    let completedRequests := w1.inst.CompletedRequests
    let totalRequests := w1.inst.TotalRequests
    let newLoadTestStatus : LoadTestStatus :=
      { LoadTestStatus.zero with
        Elapsed := newValue
        RequestsCompleted := completedRequests
        TotalRequests := totalRequests
        Status := getStatusMsg status }
    publishStatusToOpenSockets lib newLoadTestStatus w1
  else .ok w

/-- The case `results := <-instance.FinalResults` (vegeta.go 362-367). -/
def handleFinalResults (lib : Library) (results : LoadTestStatus) (w : World) :
    Outcome World :=
  publishStatusToOpenSockets lib results w

/-- The case `cancelOrder, ok := <-instance.Cancel` (vegeta.go 371-379). The call
`instance.getCurrentAttacker().Stop()` is recorded in `stopped` with its receiver. -/
def handleCancel (cancelOrder ok : Bool) (w : World) : World :=
  if ok && cancelOrder then
    if w.inst.getStatus = AttackStatusCodeInProgress then
      let w1 : World := { w with inst := w.inst.setStatus AttackStatusCodeCancelled }
      { w1 with stopped := w1.stopped ++ [w1.inst.getCurrentAttacker] }
    else w
  else w

/-- The case `c := <-instance.Register` (vegeta.go 383-384). -/
def handleRegister (c : Nat) (w : World) : World :=
  { w with inst := { w.inst with
      Connections := if c ∈ w.inst.Connections then w.inst.Connections
                     else w.inst.Connections ++ [c] } }

/-- The case `c := <-instance.Unregister` (vegeta.go 388-392). -/
def handleUnregister (c : Nat) (w : World) : Outcome World :=
  if c ∈ w.inst.Connections then
    (closeSend c (deleteConnection c w))
  else .ok w

/-- The case `m := <-instance.Incoming` (vegeta.go 396-415). The goroutine started at
line 413 blocks sending `true` on `instance.Cancel`. -/
def handleIncoming (m : String) (w : World) : Outcome World :=
  if !(m = MessageCancelTest || m = MessageGetTestStatus) then
    broadcast m w
  else
    if m = MessageCancelTest then
      .ok { w with inst := { w.inst with Cancel := w.inst.Cancel ++ [true] } }
    else .ok w

/-! ## The connection halves (websocket.go) -/

/-- The value of `okToSend` at websocket.go 109, computed by lines 99-106 from the status
read at line 101 and the message. -/
def ReadPump.okToSend (status : Int) (message : String) : Bool :=
  let okToSend := true
  let okToSend := if status ≠ AttackStatusCodeInProgress then false else okToSend
  let okToSend := (fun (_ : Bool) =>
    (message = MessageGetTestStatus || message = MessageCancelTest : Bool)) okToSend
  okToSend

/-- What one iteration of the loop of `ReadPump` (websocket.go 97-111) sends on
`instance.Incoming` for a message read without error: the message, or nothing. -/
def ReadPump.forward (w : World) (message : String) : Option String :=
  if ReadPump.okToSend w.inst.getStatus message then some message else none

/-- The receive `<-c.Send` of `WritePump` (websocket.go 133) when a message is queued. -/
def writePumpReceive (c : Nat) (w : World) : World :=
  match w.sockets[c]? with
  | none => w
  | some ch => { w with sockets := w.sockets.set c { ch with buf := ch.buf.tail } }

/-- The statement of websocket.go 53: a new `WsConnection` with an empty, open mailbox.
Returns the pointer. -/
def newWsConnection (w : World) : Nat × World :=
  (w.sockets.length, { w with sockets := w.sockets ++ [{ buf := [], closed := false }] })

/-! ## The attack runner: `startAttack` (vegeta.go 172-278) -/

/-- Sets the program counter of runner `i`. -/
def setPC (i : Nat) (pc : PC) (w : World) : World :=
  match w.runners[i]? with
  | none => w
  | some r => { w with runners := w.runners.set i { r with pc := pc } }

/-- The value `uint32(requestsPerSecond*duration)` of lines 194 and 263. -/
def totalRequestsOf (p : AttackParams) : Nat :=
  toUint32 (wrapInt64 (p.requestsPerSecond * p.duration))

/-- Lines 187-194: the status becomes InProgress and the three counters are stored. -/
def startAttackAccept (p : AttackParams) (w : World) : World :=
  let v := w.inst.setStatus AttackStatusCodeInProgress
  let v := { v with elapsed := 0 }
  let v := { v with CompletedRequests := 0 }
  let v := { v with TotalRequests := totalRequestsOf p }
  { w with inst := v }

/-- Lines 196-241: a new attacker and a new `Metrics` are created, the attacker becomes
`CurrentAttacker`, the attack is started and the local slice `results` is made, which
panics for a capacity that is negative or too large. Returns the attacker. -/
def startAttackSetup (lib : Library) (p : AttackParams) (w : World) : Outcome (Nat × World) :=
  let attacker := w.attackers
  let w1 : World := { w with attackers := w.attackers + 1 }
  let w2 : World := { w1 with inst := { w1.inst with Metrics := some { added := [], closed := false } } }
  let w3 : World := { w2 with inst := w2.inst.setCurrentAttacker (some attacker) }
  let cap := wrapInt64 (p.requestsPerSecond * p.duration)
  if cap < 0 ∨ lib.MaxSliceCap < cap then .panic "makeslice: cap out of range"
  else .ok (attacker, w3)

/-- One iteration of the loop of lines 243-247 for the outcome `res`. -/
def startAttackResult (res : vegeta.Result) (results : List vegeta.Result) (w : World) :
    Outcome (List vegeta.Result × World) :=
  match w.inst.Metrics with
  | none => .panic "invalid memory address or nil pointer dereference"
  | some m =>
    let m1 := m.Add res
    let results := results ++ [res]
    .ok (results, { w with inst := { w.inst with
      Metrics := some m1, CompletedRequests := toUint32 (m1.Requests : Int) } })

/-- Lines 249-274, run when the attack channel is closed: the guarded transition to
Completed, `Metrics.Close()`, `setCurrentResults`, the summary and its storage. Returns the
summary that line 277 sends. -/
def startAttackFinalize (lib : Library) (p : AttackParams) (results : List vegeta.Result)
    (w : World) : Outcome (LoadTestStatus × World) :=
  let status := w.inst.getStatus
  let w1 : World :=
    if status = AttackStatusCodeInProgress then
      { w with inst := w.inst.setStatus AttackStatusCodeCompleted }
    else w
  match w1.inst.Metrics with
  | none => .panic "invalid memory address or nil pointer dereference"
  | some m =>
    let m1 := m.Close
    let w2 : World := { w1 with inst := { w1.inst with Metrics := some m1 } }
    let w3 : World := { w2 with inst := w2.inst.setCurrentResults results }
    let finalLoadTestStatus : LoadTestStatus :=
      { Status := getStatusMsg w3.inst.getStatus
        Elapsed := toUint32 (wrapInt64 (Int.tdiv (lib.Duration m1.added) timeSecond * 10))
        TotalRequests := totalRequestsOf p
        RequestsCompleted := toUint32 (m1.Requests : Int)
        SuccessRate := strconv.FormatFloat ((lib.Success m1.added).mul (.finite 100)) 2
        P50 := toUint32 (Int.tdiv (lib.P50 m1.added) timeMillisecond)
        P95 := toUint32 (Int.tdiv (lib.P95 m1.added) timeMillisecond)
        P99 := toUint32 (Int.tdiv (lib.P99 m1.added) timeMillisecond) }
    let w4 : World := { w3 with inst := w3.inst.setLatestVegetaMetrics finalLoadTestStatus }
    .ok (finalLoadTestStatus, w4)

/-- The deferred call of line 183, run when `startAttack` returns after line 277. -/
def startAttackDeferred (w : World) : World :=
  { w with inst := w.inst.setStatus AttackStatusCodeCompleted }

/-- The next step of runner `i` that needs no other goroutine: the read of line 175, the
check of line 178 followed by lines 183-194, the set-up of lines 196-241, and the deferred
call. In every other position the runner waits and nothing changes. -/
def runnerStep (lib : Library) (i : Nat) (w : World) : Outcome World :=
  match w.runners[i]? with
  | none => .ok w
  | some r =>
    match r.pc with
    | .entry => .ok (setPC i (.checked w.inst.getStatus) w)
    | .checked currentStatus =>
      if currentStatus = AttackStatusCodeInProgress then .ok (setPC i .done w)
      else .ok (setPC i .accepted (startAttackAccept r.params w))
    | .accepted =>
      (startAttackSetup lib r.params w).bind
        (fun aw => .ok (setPC i (.attacking aw.1 []) aw.2))
    | .returning => .ok (setPC i .done (startAttackDeferred w))
    | _ => .ok w

/-- Runner `i` receives `res` from its attack channel. -/
def runnerResult (i : Nat) (res : vegeta.Result) (w : World) : Outcome World :=
  match w.runners[i]? with
  | none => .ok w
  | some r =>
    match r.pc with
    | .attacking attacker results =>
      (startAttackResult res results w).bind
        (fun rw => .ok (setPC i (.attacking attacker rw.1) rw.2))
    | _ => .ok w

/-- Runner `i` finds its attack channel closed and runs lines 249-274. -/
def runnerStreamEnd (lib : Library) (i : Nat) (w : World) : Outcome World :=
  match w.runners[i]? with
  | none => .ok w
  | some r =>
    match r.pc with
    | .attacking _ results =>
      (startAttackFinalize lib r.params results w).bind
        (fun fw => .ok (setPC i (.sending fw.1) fw.2))
    | _ => .ok w

/-- The rendezvous on `instance.FinalResults`: runner `i`, blocked at line 277, hands its
summary to the coordinator loop, which handles it. -/
def deliverFinalResults (lib : Library) (i : Nat) (w : World) : Outcome World :=
  match w.runners[i]? with
  | none => .ok w
  | some r =>
    match r.pc with
    | .sending finalLoadTestStatus =>
      handleFinalResults lib finalLoadTestStatus (setPC i .returning w)
    | _ => .ok w

/-- The rendezvous on `instance.Cancel`: the loop receives the value of the first blocked
sender. -/
def deliverCancel (w : World) : World :=
  match w.inst.Cancel with
  | [] => w
  | cancelOrder :: rest =>
    handleCancel cancelOrder true { w with inst := { w.inst with Cancel := rest } }

/-- The rendezvous on `instance.Incoming`: one iteration of the loop of `ReadPump` for a
message read from the subscriber (websocket.go 92-111) and, when the read half sends it,
the case of the coordinator loop for it. The read halves are the only senders on
`instance.Incoming`. -/
def deliverIncoming (message : String) (w : World) : Outcome World :=
  match ReadPump.forward w message with
  | none => .ok w
  | some m => handleIncoming m w

/-! ## The process as a transition system -/

/-- The atomic steps of the process. An event that is not enabled leaves the world as it
is. `incoming` and `unregister` may carry any message and any pointer, which covers what
the read halves can send. -/
inductive Event where
  | tick (ok : Bool)
  | finalResults (i : Nat)
  | cancel
  | register
  | unregister (c : Nat)
  | incoming (m : String)
  | writePump (c : Nat)
  | startAttack (p : AttackParams)
  | runner (i : Nat)
  | result (i : Nat) (res : vegeta.Result)
  | streamEnd (i : Nat)
deriving DecidableEq, Repr

/-- One step of the process. -/
def step (lib : Library) (e : Event) (w : World) : Outcome World :=
  match e with
  | .tick ok => handleTick lib ok w
  | .finalResults i => deliverFinalResults lib i w
  | .cancel => .ok (deliverCancel w)
  | .register => .ok (handleRegister (newWsConnection w).1 (newWsConnection w).2)
  | .unregister c => handleUnregister c w
  | .incoming m => handleIncoming m w
  | .writePump c => .ok (writePumpReceive c w)
  | .startAttack p => .ok { w with runners := w.runners ++ [{ params := p, pc := .entry }] }
  | .runner i => runnerStep lib i w
  | .result i res => runnerResult i res w
  | .streamEnd i => runnerStreamEnd lib i w

/-- A sequence of steps, first event first. -/
def run (lib : Library) : List Event → World → Outcome World
  | [], w => .ok w
  | e :: es, w => (step lib e w).bind (run lib es)

/-- The worlds the process can be in. -/
inductive Reachable (lib : Library) : World → Prop where
  | init : Reachable lib World.init
  | step (e : Event) (w w1 : World) :
      Reachable lib w → VegetaUI.step lib e w = .ok w1 → Reachable lib w1

/-- Whether a runner is between its admission and its finalization: accepted by the check
of line 178 and not yet out of the loop of lines 243-247. -/
def PC.active : PC → Bool
  | .accepted => true
  | .attacking _ _ => true
  | _ => false

/-- The number of attack runners between admission and finalization. -/
def activeRunners (w : World) : Nat :=
  (w.runners.filter (fun r => r.pc.active)).length

/-- A library for the examples: a JSON-like rendering and constant aggregates. -/
def sampleLibrary : Library :=
  { MarshalIndent := fun s => .ok (s.Status ++ ":" ++ toString s.Elapsed ++ ":" ++
      toString s.RequestsCompleted ++ "/" ++ toString s.TotalRequests)
    Duration := fun rs => rs.length * 100000000
    Success := fun _ => .finite 1
    P50 := fun _ => 0
    P95 := fun _ => 0
    P99 := fun _ => 0
    MaxSliceCap := 1000000 }

/-- Parameters for the examples: 10 requests per second for 5 seconds. -/
def sampleParams : AttackParams :=
  { targetURL := "http://localhost/", attackMethod := "GET", body := "",
    requestsPerSecond := 10, duration := 5, timeout := 1, workers := 1,
    differentConnections := false, ignoreInvalidCert := false }

/-- Whether the mailbox of connection `c` has room for one more message. -/
def hasRoom (w : World) (c : Nat) : Bool :=
  match w.sockets[c]? with
  | some ch => decide (ch.buf.length < sendBufferSize)
  | none => false

/-- The registry is a set of pointers to connections whose mailbox is open. -/
def RegistryOK (w : World) : Prop :=
  w.inst.Connections.Nodup ∧
  ∀ c ∈ w.inst.Connections, (w.sockets[c]?).map (fun ch => ch.closed) = some false

instance (w : World) : Decidable (RegistryOK w) := by
  unfold RegistryOK
  infer_instance

/-- Whether an outcome is a panic. -/
def Outcome.isPanic {σ : Type} : Outcome σ → Bool
  | .panic _ => true
  | _ => false

/-- The events that the coordinator loop handles. -/
def Event.coordinator : Event → Bool
  | .tick _ => true
  | .finalResults _ => true
  | .cancel => true
  | .register => true
  | .unregister _ => true
  | .incoming _ => true
  | _ => false

/-- A hub for the examples, with a run InProgress: connection 0 has an empty mailbox,
connection 1 a full one, connection 2 one queued message; connection 3 was evicted. -/
def sampleHub : World :=
  { inst := { instance0 with status := 1, elapsed := 7, CompletedRequests := 3,
                             TotalRequests := 50, Connections := [0, 1, 2] }
    sockets := [{ buf := [], closed := false },
                { buf := List.replicate 256 "m", closed := false },
                { buf := ["old"], closed := false },
                { buf := [], closed := true }]
    attackers := 1
    stopped := []
    runners := [] }

/-- The snapshot used in the examples. -/
def sampleStatus : LoadTestStatus :=
  { LoadTestStatus.zero with Status := "InProgress", Elapsed := 8, RequestsCompleted := 3,
                             TotalRequests := 50 }

/-- A connection subscribes, a run is accepted and set up, and 257 ticks are handled while
the write half of the connection drains nothing: the 257th tick finds the mailbox full. -/
def evictionEvents : List Event :=
  [.register, .startAttack sampleParams, .runner 0, .runner 0, .runner 0] ++
    List.replicate 257 (.tick true)

/-- The world at the end of the eviction run. -/
def evictedWorld : World :=
  { inst := { instance0 with
      status := 1, elapsed := 257, TotalRequests := 50,
      Metrics := some { added := [], closed := false }, CurrentAttacker := some 0 }
    sockets := [{ buf := (List.range 256).map
                    (fun n => "InProgress:" ++ toString (n + 1) ++ ":0/50"),
                  closed := true }]
    attackers := 1
    stopped := []
    runners := [{ params := sampleParams, pc := .attacking 0 [] }] }

/-- The events of the failing run of the cancellation scenario up to the cancellation:
a start is accepted and set up, a subscriber sends "cancelTest", the loop handles the
cancellation request. -/
def cancelledRunEvents : List Event :=
  [.startAttack sampleParams, .runner 0, .runner 0, .runner 0,
   .incoming MessageCancelTest, .cancel]

/-- The rest of that run: the stream of the stopped attacker ends, the summary is
delivered, `startAttack` returns. -/
def finishRunEvents : List Event :=
  [.streamEnd 0, .finalResults 0, .runner 0]

/-- A second start, issued after the cancellation while the first runner is still in its
result loop. -/
def secondStartEvents : List Event :=
  [.startAttack sampleParams, .runner 1, .runner 1, .runner 1]

/-- One outcome of the engine for the examples: status 200 after 3 ms. -/
def sampleResult : vegeta.Result :=
  { Code := 200, Timestamp := 0, Latency := 3000000, BytesOut := 0, BytesIn := 10, Error := "" }

/-- Parameters for the examples: 7 requests per second for 3 seconds. -/
def otherParams : AttackParams :=
  { sampleParams with requestsPerSecond := 7, duration := 3 }

/-- Two invocations of `startAttack` issued with status NotStarted whose reads of the
status (line 175) both happen before either of them executes lines 178-194. -/
def racingStartEvents : List Event :=
  [.startAttack sampleParams, .startAttack otherParams,
   .runner 0, .runner 1, .runner 0, .runner 1]

/-- A run that is accepted and set up, consumes 14 outcomes and finds its stream closed.
With `sampleLibrary` the metrics report a duration of 14 times 100 ms. -/
def fourteenResultsEvents : List Event :=
  [.startAttack sampleParams, .runner 0, .runner 0, .runner 0] ++
    List.replicate 14 (.result 0 sampleResult) ++ [.streamEnd 0]

/-- A final summary for the examples. -/
def sampleSummary : LoadTestStatus :=
  { Status := "Completed", Elapsed := 50, RequestsCompleted := 50, TotalRequests := 50,
    SuccessRate := "100.00", P50 := 3, P95 := 4, P99 := 5 }

/-- The events of the goroutines that are neither an attack runner nor the handling of
a cancellation request: ticks, registrations, unregistrations, inbound messages and the
receives of the write halves. -/
def quietEvent : Event → Bool
  | .tick _ => true
  | .register => true
  | .unregister _ => true
  | .incoming _ => true
  | .writePump _ => true
  | _ => false

/-- The events of an uncancelled run of runner `i` during which no other invocation of
`startAttack` takes a step: the outcomes that runner `i` receives and the quiet events. -/
def ownOrQuiet (i : Nat) : Event → Bool
  | .result j _ => decide (j = i)
  | e => quietEvent e

/-- The outcomes delivered by the `result` events of a trace, in order. -/
def resultsOf : List Event → List vegeta.Result
  | [] => []
  | .result _ res :: es => res :: resultsOf es
  | _ :: es => resultsOf es

/-- Runner `i`, called with `p`, is in its result loop with attacker `a`, has consumed the
outcomes `rs`, and is alone with the metrics it created: the status is InProgress, the
metrics hold exactly `rs` and `CompletedRequests` is their number as a `uint32`. With
`rs = []` this is the world right after the set-up of an accepted start. -/
def LoopInv (i : Nat) (p : AttackParams) (a : Nat) (rs : List vegeta.Result) (w : World) :
    Prop :=
  w.runners[i]? = some { params := p, pc := .attacking a rs } ∧
  w.inst.Metrics = some { added := rs, closed := false } ∧
  w.inst.status = AttackStatusCodeInProgress ∧
  w.inst.CompletedRequests = rs.length % 2 ^ 32

instance (i : Nat) (p : AttackParams) (a : Nat) (rs : List vegeta.Result) (w : World) :
    Decidable (LoopInv i p a rs w) := by
  unfold LoopInv
  infer_instance

/-- What a step of another goroutine leaves alone during a run: the runners, the metrics,
the status and the two request counters. -/
def SameRun (w w1 : World) : Prop :=
  w1.runners = w.runners ∧
  w1.inst.Metrics = w.inst.Metrics ∧
  w1.inst.status = w.inst.status ∧
  w1.inst.CompletedRequests = w.inst.CompletedRequests ∧
  w1.inst.TotalRequests = w.inst.TotalRequests

/-- A library for a machine on which a slice of 2^32 outcomes can be allocated. -/
def largeMemoryLibrary : Library :=
  { sampleLibrary with MaxSliceCap := 2 ^ 40 }

/-- Parameters whose product is 2^32: 65536 requests per second for 65536 seconds. -/
def wrappingParams : AttackParams :=
  { sampleParams with requestsPerSecond := 65536, duration := 65536 }

/-- A run with `wrappingParams` that is accepted and set up, consumes one outcome and
finds its stream closed. -/
def wrappingRunEvents : List Event :=
  [.startAttack wrappingParams, .runner 0, .runner 0, .runner 0,
   .result 0 sampleResult, .streamEnd 0]

/-- The first run is cancelled, a second start is accepted while the first runner is still
in its loop, and the first runner then receives a late outcome of its stopped attacker. -/
def lateResultEvents : List Event :=
  cancelledRunEvents ++ secondStartEvents ++ [.result 0 sampleResult]

/-- The second run, never cancelled: its runner consumes two outcomes and finds its stream
closed. -/
def secondRunEvents : List Event :=
  [.result 1 sampleResult, .result 1 sampleResult, .streamEnd 1]

end VegetaUI

/-!
# casper: the manifest scan of `loadScriptFromFile`

A shallow embedding of `src/casper/main.go` 84-117 and `src/casper/script.go` 13-15. The
input is the sequence of lines that `scanner.Scan()` delivers; byte slices are strings and
are compared character by character.
-/

namespace Casper

/-- The array `ManifestVariables` (script.go 13-15). -/
def ManifestVariables : List String :=
  ["MANIFEST_SCRIPT_ID", "MANIFEST_SCRIPT_NAME", "MANIFEST_SCRIPT_DESC"]

/-- Whether `sub` is an initial segment of `b`. -/
def startsWith : List Char → List Char → Bool
  | _, [] => true
  | [], _ :: _ => false
  | c :: cs, d :: ds => c == d && startsWith cs ds

/-- The library function `bytes.Contains(b, subslice)`: whether `sub` occurs in `b` at some
position. -/
def bytesContains : List Char → List Char → Bool
  | [], sub => sub.isEmpty
  | c :: cs, sub => startsWith (c :: cs) sub || bytesContains cs sub

/-- The value `int(math.Pow(2, float64(i)))`, exact for the indices used. -/
def pow2 (i : Nat) : Nat := 2 ^ i

/-- The variable `outstandingTokenCount` (main.go 87). -/
def outstandingTokenCount : Nat := pow2 ManifestVariables.length - 1

/-- The loop of main.go 102-111 from index `i` over the remaining manifest variables. -/
def scanManifestVariables (currentLine : String) : Nat → List String → Nat → Nat
  | _, [], manifestTokenCount => manifestTokenCount
  | i, curManifestVar :: rest, manifestTokenCount =>
    let byteFlagPos := pow2 i
    if bytesContains currentLine.data curManifestVar.data &&
        ((manifestTokenCount &&& byteFlagPos) != byteFlagPos) then
      scanManifestVariables currentLine (i + 1) rest (manifestTokenCount + byteFlagPos)
    else
      scanManifestVariables currentLine (i + 1) rest manifestTokenCount

/-- The variables that the scan loop updates. -/
structure ScanState where
  manifestTokenCount : Nat
  fileContents : String
deriving DecidableEq, Repr

/-- One iteration of the loop of main.go 89-112 for the line `line` delivered by the
scanner. `fileContents.Write` is `bytes.Buffer.Write`, whose error is always nil. -/
def scanLine (s : ScanState) (line : String) : ScanState :=
  let currentLine := line ++ "\n"
  if s.manifestTokenCount ≥ outstandingTokenCount then s
  else
    let s1 : ScanState := { s with fileContents := s.fileContents ++ currentLine }
    { s1 with manifestTokenCount :=
        scanManifestVariables currentLine 0 ManifestVariables s1.manifestTokenCount }

/-- The whole loop of main.go 86-112 over the lines of a file. -/
def scanLines (lines : List String) : ScanState :=
  lines.foldl scanLine { manifestTokenCount := 0, fileContents := "" }

/-- The check of main.go 114-117: `true` when the function does not return with
"Incomplete manifest definition". -/
def manifestCheck (lines : List String) : Bool :=
  !decide ((scanLines lines).manifestTokenCount < outstandingTokenCount)

/-- The name occurs as a substring of the line. -/
def occursIn (name line : String) : Prop :=
  ∃ pre suf : List Char, line.data = pre ++ name.data ++ suf

/-- The bitmask whose bits 0, 1 and 2 are the given flags. -/
def maskOf (b0 b1 b2 : Bool) : Nat :=
  (if b0 then 1 else 0) + (if b1 then 2 else 0) + (if b2 then 4 else 0)

/-- Whether some line of `lines` contains `name`. -/
def seenIn (lines : List String) (name : String) : Bool :=
  lines.any (fun l => bytesContains l.data name.data)

/-- A script for the examples: the three manifest variables on two lines. -/
def sampleScript : List String :=
  ["// a casper test",
   "var MANIFEST_SCRIPT_ID = 1; var MANIFEST_SCRIPT_NAME = 2;",
   "var MANIFEST_SCRIPT_DESC = 3;",
   "casper.test.begin(MANIFEST_SCRIPT_NAME, run);"]

end Casper

namespace VegetaUI

/-! ## Attack runner: admission and finalization -/

/-- C1 (evaluation at the failing input): a run is accepted, cancelled while InProgress
(status Cancelled, attacker 0 told to stop, runner 0 still in its loop); after the stream
ends, the summary is delivered and `startAttack` has returned, the status is Completed,
not Cancelled. -/
theorem startAttack_cancelled_overwritten :
    ∃ w1 w2 : World,
      run sampleLibrary cancelledRunEvents World.init = .ok w1 ∧
      w1.inst.status = AttackStatusCodeCancelled ∧
      w1.stopped = [some 0] ∧
      w1.runners.map (fun r => r.pc) = [PC.attacking 0 []] ∧
      run sampleLibrary finishRunEvents w1 = .ok w2 ∧
      w2.runners.map (fun r => r.pc) = [PC.done] ∧
      w2.inst.FinalMetrics.Status = AttackStatusMsgCancelled ∧
      w2.inst.status = AttackStatusCodeCompleted := by
  refine ⟨_, _, rfl, ?_, ?_, ?_, rfl, ?_, ?_, ?_⟩ <;> decide

theorem set_length_append_singleton {α : Type} (l : List α) (a b : α) :
    (l ++ [a]).set l.length b = l ++ [b] := by
  induction l with
  | nil => rfl
  | cons x xs ih => simp [List.set, ih]

/-- C2: when the status is InProgress, an invocation of `startAttack` with any parameters
goes from its call through the read of line 175 and the check of line 178 to its return,
and the world is the same as before except that this goroutine is recorded as done: the
singleton (status, elapsed, CompletedRequests, TotalRequests, result buffer, last summary,
attacker handle, registry), the mailboxes, the attackers and the stop calls are unchanged. -/
theorem startAttack_inProgress_unchanged (lib : Library) (p : AttackParams) (w : World)
    (h : w.inst.getStatus = AttackStatusCodeInProgress) :
    run lib [.startAttack p, .runner w.runners.length, .runner w.runners.length] w
      = .ok { w with runners := w.runners ++ [{ params := p, pc := .done }] } := by
  have h1 : w.inst.status = AttackStatusCodeInProgress := h
  simp [run, step, Outcome.bind, runnerStep, setPC, vegetaAttack.getStatus, h1,
    set_length_append_singleton]

/-- Witness for C2: a start while the first run is InProgress. -/
theorem startAttack_inProgress_unchanged_witness :
    ∃ w : World,
      run sampleLibrary [.startAttack sampleParams, .runner 0, .runner 0, .runner 0]
        World.init = .ok w ∧
      w.inst.getStatus = AttackStatusCodeInProgress ∧
      run sampleLibrary [.startAttack sampleParams, .runner 1, .runner 1] w
        = .ok { w with runners := w.runners ++ [{ params := sampleParams, pc := .done }] } :=
  ⟨_, rfl, by decide,
    startAttack_inProgress_unchanged sampleLibrary sampleParams _ (by decide)⟩

/-- C3 (evaluation at the failing input): after a cancellation the status is Cancelled
while runner 0 is still in its result loop; a second start passes the admission check, and
two runners are between admission and finalization at once. -/
theorem two_runners_coexist :
    ∃ w : World,
      run sampleLibrary (cancelledRunEvents ++ secondStartEvents) World.init = .ok w ∧
      w.runners.map (fun r => r.pc) = [PC.attacking 0 [], PC.attacking 1 []] ∧
      activeRunners w = 2 := by
  refine ⟨_, rfl, ?_, ?_⟩ <;> decide

/-! ## Broadcast -/

theorem sendOrEvict_room (content : String) (c : Nat) (w : World) (ch : Chan)
    (hc : w.sockets[c]? = some ch) (ho : ch.closed = false)
    (hr : ch.buf.length < sendBufferSize) :
    sendOrEvict content c w =
      .ok { w with sockets := w.sockets.set c { buf := ch.buf ++ [content], closed := false } } := by
  simp [sendOrEvict, hc, ho, hr]

theorem sendOrEvict_full (content : String) (c : Nat) (w : World) (ch : Chan)
    (hc : w.sockets[c]? = some ch) (ho : ch.closed = false)
    (hr : ¬ ch.buf.length < sendBufferSize) :
    sendOrEvict content c w =
      .ok { w with
        sockets := w.sockets.set c { buf := ch.buf, closed := true }
        inst := { w.inst with Connections := w.inst.Connections.filter (fun d => d ≠ c) } } := by
  simp [sendOrEvict, hc, ho, hr, closeSend, Outcome.bind, deleteConnection]

theorem hasRoom_congr (w w1 : World) (c : Nat) (h : w1.sockets[c]? = w.sockets[c]?) :
    hasRoom w1 c = hasRoom w c := by
  simp [hasRoom, h]

/-- The loop of a broadcast over keys `cs` whose mailboxes are open. -/
theorem rangeConnections_sendOrEvict (content : String) (cs : List Nat) :
    ∀ w : World, cs.Nodup →
      (∀ c ∈ cs, ∃ ch, w.sockets[c]? = some ch ∧ ch.closed = false) →
      ∃ w1 : World,
        rangeConnections (sendOrEvict content) cs w = .ok w1 ∧
        w1.inst.Connections =
          w.inst.Connections.filter (fun c => decide (c ∉ cs) || hasRoom w c) ∧
        (∀ c ∈ cs, ∀ ch, w.sockets[c]? = some ch →
          w1.sockets[c]? = some
            (if ch.buf.length < sendBufferSize
             then { buf := ch.buf ++ [content], closed := false }
             else { buf := ch.buf, closed := true })) ∧
        (∀ c, c ∉ cs → w1.sockets[c]? = w.sockets[c]?) ∧
        w1 = { w with inst := { w.inst with Connections := w1.inst.Connections },
                      sockets := w1.sockets } := by
  induction cs with
  | nil =>
    intro w _ _
    exact ⟨w, rfl, by simp, by simp, by simp, rfl⟩
  | cons c cs ih =>
    intro w hnd hopen
    have hc_notin : c ∉ cs := (List.nodup_cons.mp hnd).1
    have hnd1 : cs.Nodup := (List.nodup_cons.mp hnd).2
    obtain ⟨ch, hch, hcl⟩ := hopen c (List.mem_cons_self c cs)
    have hlt : c < w.sockets.length := by
      rcases List.getElem?_eq_some.mp hch with ⟨h, _⟩
      exact h
    by_cases hr : ch.buf.length < sendBufferSize
    · -- the message is queued
      let w0 : World :=
        { w with sockets := w.sockets.set c { buf := ch.buf ++ [content], closed := false } }
      have hstep : sendOrEvict content c w = .ok w0 := sendOrEvict_room content c w ch hch hcl hr
      have hsame : ∀ d, d ≠ c → w0.sockets[d]? = w.sockets[d]? := by
        intro d hd
        exact List.getElem?_set_ne (Ne.symm hd)
      have hopen0 : ∀ d ∈ cs, ∃ ch, w0.sockets[d]? = some ch ∧ ch.closed = false := by
        intro d hd
        have hdc : d ≠ c := fun e => hc_notin (e ▸ hd)
        rw [hsame d hdc]
        exact hopen d (List.mem_cons_of_mem c hd)
      obtain ⟨w1, hrun, hconn, hin, hout, hframe⟩ := ih w0 hnd1 hopen0
      refine ⟨w1, ?_, ?_, ?_, ?_, ?_⟩
      · simp [rangeConnections, hstep, Outcome.bind, hrun]
      · rw [hconn]
        apply List.filter_congr
        intro d _
        by_cases hdc : d = c
        · subst hdc
          simp [hc_notin, hasRoom, hch, hr]
        · simp [hdc, hasRoom_congr w w0 d (hsame d hdc)]
      · intro d hd ch1 hch1
        rcases List.mem_cons.mp hd with hdc | hdcs
        · subst hdc
          rw [hout d hc_notin]
          have : ch1 = ch := by rw [hch] at hch1; exact (Option.some.inj hch1).symm
          subst this
          simp [w0, hr, List.getElem?_set_self hlt]
        · have hdc : d ≠ c := fun e => hc_notin (e ▸ hdcs)
          exact hin d hdcs ch1 (by rw [hsame d hdc]; exact hch1)
      · intro d hd
        have hdc : d ≠ c := fun e => hd (e ▸ List.mem_cons_self c cs)
        have hdcs : d ∉ cs := fun e => hd (List.mem_cons_of_mem c e)
        rw [hout d hdcs, hsame d hdc]
      · rw [hframe]
    · -- the mailbox is full: closed and removed
      let w0 : World :=
        { w with
          sockets := w.sockets.set c { buf := ch.buf, closed := true }
          inst := { w.inst with Connections := w.inst.Connections.filter (fun d => d ≠ c) } }
      have hstep : sendOrEvict content c w = .ok w0 := sendOrEvict_full content c w ch hch hcl hr
      have hsame : ∀ d, d ≠ c → w0.sockets[d]? = w.sockets[d]? := by
        intro d hd
        exact List.getElem?_set_ne (Ne.symm hd)
      have hopen0 : ∀ d ∈ cs, ∃ ch, w0.sockets[d]? = some ch ∧ ch.closed = false := by
        intro d hd
        have hdc : d ≠ c := fun e => hc_notin (e ▸ hd)
        rw [hsame d hdc]
        exact hopen d (List.mem_cons_of_mem c hd)
      obtain ⟨w1, hrun, hconn, hin, hout, hframe⟩ := ih w0 hnd1 hopen0
      refine ⟨w1, ?_, ?_, ?_, ?_, ?_⟩
      · simp [rangeConnections, hstep, Outcome.bind, hrun]
      · rw [hconn]
        show List.filter _ (List.filter _ w.inst.Connections) = _
        rw [List.filter_filter]
        apply List.filter_congr
        intro d _
        by_cases hdc : d = c
        · subst hdc
          simp [hasRoom, hch, hr]
        · simp [hdc, hasRoom_congr w w0 d (hsame d hdc)]
      · intro d hd ch1 hch1
        rcases List.mem_cons.mp hd with hdc | hdcs
        · subst hdc
          rw [hout d hc_notin]
          have : ch1 = ch := by rw [hch] at hch1; exact (Option.some.inj hch1).symm
          subst this
          simp [w0, hr, List.getElem?_set_self hlt]
        · have hdc : d ≠ c := fun e => hc_notin (e ▸ hdcs)
          exact hin d hdcs ch1 (by rw [hsame d hdc]; exact hch1)
      · intro d hd
        have hdc : d ≠ c := fun e => hd (e ▸ List.mem_cons_self c cs)
        have hdcs : d ∉ cs := fun e => hd (List.mem_cons_of_mem c e)
        rw [hout d hdcs, hsame d hdc]
      · rw [hframe]

theorem registryOK_open (w : World) (h : RegistryOK w) :
    ∀ c ∈ w.inst.Connections, ∃ ch, w.sockets[c]? = some ch ∧ ch.closed = false := by
  intro c hc
  have h1 := h.2 c hc
  cases hs : w.sockets[c]? with
  | none => simp [hs] at h1
  | some ch => exact ⟨ch, rfl, by simpa [hs] using h1⟩

/-- Effect of a broadcast of `content` on a well-formed registry. -/
theorem broadcast_spec (content : String) (w : World) (h : RegistryOK w) :
    ∃ w1 : World,
      broadcast content w = .ok w1 ∧
      w1.inst.Connections = w.inst.Connections.filter (fun c => hasRoom w c) ∧
      (∀ c ∈ w.inst.Connections, ∀ ch, w.sockets[c]? = some ch →
        w1.sockets[c]? = some
          (if ch.buf.length < sendBufferSize
           then { buf := ch.buf ++ [content], closed := false }
           else { buf := ch.buf, closed := true })) ∧
      (∀ c, c ∉ w.inst.Connections → w1.sockets[c]? = w.sockets[c]?) ∧
      w1 = { w with inst := { w.inst with Connections := w1.inst.Connections },
                    sockets := w1.sockets } := by
  obtain ⟨w1, hrun, hconn, hin, hout, hframe⟩ :=
    rangeConnections_sendOrEvict content w.inst.Connections w h.1 (registryOK_open w h)
  refine ⟨w1, hrun, ?_, hin, hout, hframe⟩
  rw [hconn]
  apply List.filter_congr
  intro d hd
  simp [hd]

/-- C5: for a registry whose connections have open mailboxes and a status message that
`json.MarshalIndent` encodes as `content`, `publishStatusToOpenSockets` completes; the
registry then holds exactly the connections whose mailbox had room (fewer than 256 queued
messages), in the same order; each of them has `content` appended at the tail of its
mailbox, the earlier messages unchanged; each connection whose mailbox was full is out of
the registry with its mailbox closed; no other mailbox and nothing else changes. -/
theorem publishStatusToOpenSockets_spec (lib : Library) (newStatus : LoadTestStatus)
    (content : String) (w : World) (hm : lib.MarshalIndent newStatus = .ok content)
    (h : RegistryOK w) :
    ∃ w1 : World,
      publishStatusToOpenSockets lib newStatus w = .ok w1 ∧
      w1.inst.Connections = w.inst.Connections.filter (fun c => hasRoom w c) ∧
      (∀ c ∈ w.inst.Connections, ∀ ch, w.sockets[c]? = some ch →
        ch.buf.length < sendBufferSize →
          c ∈ w1.inst.Connections ∧
          w1.sockets[c]? = some { buf := ch.buf ++ [content], closed := false }) ∧
      (∀ c ∈ w.inst.Connections, ∀ ch, w.sockets[c]? = some ch →
        ¬ ch.buf.length < sendBufferSize →
          c ∉ w1.inst.Connections ∧
          w1.sockets[c]? = some { buf := ch.buf, closed := true }) ∧
      (∀ c, c ∉ w.inst.Connections → w1.sockets[c]? = w.sockets[c]?) ∧
      w1 = { w with inst := { w.inst with Connections := w1.inst.Connections },
                    sockets := w1.sockets } := by
  obtain ⟨w1, hrun, hconn, hin, hout, hframe⟩ := broadcast_spec content w h
  refine ⟨w1, ?_, hconn, ?_, ?_, hout, hframe⟩
  · simp [publishStatusToOpenSockets, hm, hrun]
  · intro c hc ch hch hr
    refine ⟨?_, ?_⟩
    · rw [hconn]
      exact List.mem_filter.mpr ⟨hc, by simp [hasRoom, hch, hr]⟩
    · rw [hin c hc ch hch]
      simp [hr]
  · intro c hc ch hch hr
    refine ⟨?_, ?_⟩
    · rw [hconn]
      intro hmem
      have := (List.mem_filter.mp hmem).2
      simp [hasRoom, hch, hr] at this
    · rw [hin c hc ch hch]
      simp [hr]

/-- Witness for C5: a publish to the sample hub, whose connection 1 has a full mailbox. -/
theorem publishStatusToOpenSockets_spec_witness :
    sampleLibrary.MarshalIndent sampleStatus = .ok "InProgress:8:3/50" ∧
    RegistryOK sampleHub ∧
    ∃ w1 : World,
      publishStatusToOpenSockets sampleLibrary sampleStatus sampleHub = .ok w1 ∧
      w1.inst.Connections = sampleHub.inst.Connections.filter (fun c => hasRoom sampleHub c) ∧
      (∀ c ∈ sampleHub.inst.Connections, ∀ ch, sampleHub.sockets[c]? = some ch →
        ch.buf.length < sendBufferSize →
          c ∈ w1.inst.Connections ∧
          w1.sockets[c]? = some { buf := ch.buf ++ ["InProgress:8:3/50"], closed := false }) ∧
      (∀ c ∈ sampleHub.inst.Connections, ∀ ch, sampleHub.sockets[c]? = some ch →
        ¬ ch.buf.length < sendBufferSize →
          c ∉ w1.inst.Connections ∧
          w1.sockets[c]? = some { buf := ch.buf, closed := true }) ∧
      (∀ c, c ∉ sampleHub.inst.Connections → w1.sockets[c]? = sampleHub.sockets[c]?) ∧
      w1 = { sampleHub with
        inst := { sampleHub.inst with Connections := w1.inst.Connections },
        sockets := w1.sockets } :=
  ⟨rfl, by decide,
    publishStatusToOpenSockets_spec sampleLibrary sampleStatus "InProgress:8:3/50" sampleHub
      rfl (by decide)⟩

/-! ## Coordinator loop: cancellation -/

/-- C4: the handling of a cancellation request (the value `true` received on the open
channel `Cancel`). If the status is InProgress it becomes Cancelled and `Stop()` is called
on the current attacker, nothing else changes; otherwise the world is unchanged. A stop is
signalled if and only if the status was InProgress. -/
theorem handleCancel_spec (w : World) :
    (w.inst.getStatus = AttackStatusCodeInProgress →
      handleCancel true true w =
        { w with inst := { w.inst with status := AttackStatusCodeCancelled },
                 stopped := w.stopped ++ [w.inst.CurrentAttacker] }) ∧
    (w.inst.getStatus ≠ AttackStatusCodeInProgress → handleCancel true true w = w) ∧
    ((handleCancel true true w).stopped ≠ w.stopped ↔
      w.inst.getStatus = AttackStatusCodeInProgress) := by
  by_cases h : w.inst.getStatus = AttackStatusCodeInProgress
  · refine ⟨fun _ => ?_, fun h2 => absurd h h2, ?_⟩
    · simp [handleCancel, h, vegetaAttack.setStatus, vegetaAttack.getCurrentAttacker]
    · simp [handleCancel, h]
  · refine ⟨fun h2 => absurd h2 h, fun _ => ?_, ?_⟩
    · simp [handleCancel, h]
    · simp [handleCancel, h]

/-- Witness for C4: a cancellation request in a world with a run InProgress and one with no
run. -/
theorem handleCancel_spec_witness :
    (∃ w : World,
      run sampleLibrary [.startAttack sampleParams, .runner 0, .runner 0, .runner 0]
        World.init = .ok w ∧
      w.inst.getStatus = AttackStatusCodeInProgress ∧
      handleCancel true true w =
        { w with inst := { w.inst with status := AttackStatusCodeCancelled },
                 stopped := w.stopped ++ [w.inst.CurrentAttacker] }) ∧
    World.init.inst.getStatus ≠ AttackStatusCodeInProgress ∧
    handleCancel true true World.init = World.init :=
  ⟨⟨_, rfl, by decide, (handleCancel_spec _).1 (by decide)⟩, by decide,
    (handleCancel_spec World.init).2.1 (by decide)⟩

/-! ## Coordinator loop: inbound messages, unregistration, ticks -/

/-- C6: an inbound message that is neither "getStatus" nor "cancelTest" is dropped by the
read half, the only sender on `instance.Incoming`: nothing is forwarded and the world is
unchanged. Every message that a read half forwards is handled by the loop, whatever the
status, without enqueuing anything into a mailbox, evicting a connection or changing the
status, the counters, the result buffer, the summary, the attacker handle or the stop
calls: at most a sender of a cancellation request is started. Handled while the status is
not InProgress and no other cancellation request is pending, it leaves the world as it was
once that request has been delivered to the loop. -/
theorem inbound_message_dropped (message : String) (w : World) :
    (message ≠ MessageGetTestStatus → message ≠ MessageCancelTest →
      ReadPump.forward w message = none ∧ deliverIncoming message w = .ok w) ∧
    (∀ w0 : World, ReadPump.forward w0 message = some message →
      ∃ w1 : World,
        handleIncoming message w = .ok w1 ∧
        w1.sockets = w.sockets ∧
        w1.inst.Connections = w.inst.Connections ∧
        w1 = { w with inst := { w.inst with Cancel := w1.inst.Cancel } }) ∧
    (∀ w0 : World, ReadPump.forward w0 message = some message →
      w.inst.getStatus ≠ AttackStatusCodeInProgress → w.inst.Cancel = [] →
        (handleIncoming message w).bind (fun w1 => .ok (deliverCancel w1)) = .ok w) := by
  have hfw : ∀ w0 : World, ReadPump.forward w0 message = some message →
      message = MessageGetTestStatus ∨ message = MessageCancelTest := by
    intro w0 h
    by_contra hne
    push_neg at hne
    simp [ReadPump.forward, ReadPump.okToSend, hne.1, hne.2] at h
  refine ⟨?_, ?_, ?_⟩
  · intro h1 h2
    have hnone : ReadPump.forward w message = none := by
      simp [ReadPump.forward, ReadPump.okToSend, h1, h2]
    exact ⟨hnone, by simp [deliverIncoming, hnone]⟩
  · intro w0 h
    rcases hfw w0 h with hm | hm
    · subst hm
      exact ⟨w, by simp [handleIncoming, MessageGetTestStatus, MessageCancelTest],
        rfl, rfl, rfl⟩
    · subst hm
      exact ⟨{ w with inst := { w.inst with Cancel := w.inst.Cancel ++ [true] } },
        by simp [handleIncoming, MessageGetTestStatus, MessageCancelTest], rfl, rfl, rfl⟩
  · intro w0 h hst hc
    have hst1 : ¬ w.inst.status = AttackStatusCodeInProgress := hst
    rcases hfw w0 h with hm | hm
    · subst hm
      simp [handleIncoming, MessageGetTestStatus, MessageCancelTest, Outcome.bind,
        deliverCancel, hc]
    · subst hm
      obtain ⟨inst, sockets, attackers, stopped, runners⟩ := w
      obtain ⟨status, elapsed, cr, tr, metrics, cancel, ca, conns, results, fm⟩ := inst
      simp only at hc hst1
      subst hc
      simp [handleIncoming, MessageGetTestStatus, MessageCancelTest, Outcome.bind,
        deliverCancel, handleCancel, vegetaAttack.getStatus, hst1]

/-- Witness for C6: "hello" is not forwarded; "cancelTest" and "getStatus" are forwarded
and handled in the sample hub, and "cancelTest" handled in the initial world, whose status
is NotStarted, leaves it as it was. -/
theorem inbound_message_dropped_witness :
    ("hello" ≠ MessageGetTestStatus ∧ "hello" ≠ MessageCancelTest) ∧
    (ReadPump.forward sampleHub "hello" = none ∧ deliverIncoming "hello" sampleHub = .ok sampleHub) ∧
    ReadPump.forward sampleHub "cancelTest" = some "cancelTest" ∧
    (∃ w1 : World,
      handleIncoming "cancelTest" sampleHub = .ok w1 ∧
      w1.sockets = sampleHub.sockets ∧
      w1.inst.Connections = sampleHub.inst.Connections ∧
      w1 = { sampleHub with inst := { sampleHub.inst with Cancel := w1.inst.Cancel } }) ∧
    (World.init.inst.getStatus ≠ AttackStatusCodeInProgress ∧ World.init.inst.Cancel = []) ∧
    (handleIncoming "cancelTest" World.init).bind (fun w1 => .ok (deliverCancel w1))
      = .ok World.init :=
  ⟨⟨by decide, by decide⟩,
   (inbound_message_dropped "hello" sampleHub).1 (by decide) (by decide),
   by decide,
   (inbound_message_dropped "cancelTest" sampleHub).2.1 sampleHub (by decide),
   ⟨by decide, by decide⟩,
   (inbound_message_dropped "cancelTest" World.init).2.2 sampleHub (by decide) (by decide)
     (by decide)⟩

/-- C9: handling `Unregister(c)` for a connection that is not in the registry changes
nothing (registry, mailboxes and all the rest); handling it twice in a row gives the same
outcome as handling it once; when `c` is in the registry with an open mailbox, it is
removed and its mailbox closed, nothing else changes. -/
theorem handleUnregister_idempotent (c : Nat) (w : World) :
    (c ∉ w.inst.Connections → handleUnregister c w = .ok w) ∧
    ((handleUnregister c w).bind (handleUnregister c) = handleUnregister c w) ∧
    (∀ ch, c ∈ w.inst.Connections → w.sockets[c]? = some ch → ch.closed = false →
      handleUnregister c w =
        .ok { w with
          inst := { w.inst with Connections := w.inst.Connections.filter (fun d => d ≠ c) }
          sockets := w.sockets.set c { buf := ch.buf, closed := true } }) := by
  refine ⟨?_, ?_, ?_⟩
  · intro h
    simp [handleUnregister, h]
  · by_cases h : c ∈ w.inst.Connections
    · cases hr : handleUnregister c w with
      | exit e => rfl
      | panic e => rfl
      | ok w1 =>
        have hnot : c ∉ w1.inst.Connections := by
          simp only [handleUnregister, h, if_true, closeSend, deleteConnection] at hr
          split at hr
          · exact Outcome.noConfusion hr
          · split at hr
            · exact Outcome.noConfusion hr
            · injection hr with hr
              subst hr
              simp
        simp [Outcome.bind, handleUnregister, hnot]
    · simp [handleUnregister, h, Outcome.bind]
  · intro ch h hch hcl
    simp [handleUnregister, h, closeSend, deleteConnection, hch, hcl]

/-- Witness for C9: connection 3 of the sample hub is absent, connection 0 is present. -/
theorem handleUnregister_idempotent_witness :
    3 ∉ sampleHub.inst.Connections ∧
    handleUnregister 3 sampleHub = .ok sampleHub ∧
    (0 ∈ sampleHub.inst.Connections ∧
      sampleHub.sockets[0]? = some { buf := [], closed := false }) ∧
    handleUnregister 0 sampleHub =
      .ok { sampleHub with
        inst := { sampleHub.inst with
          Connections := sampleHub.inst.Connections.filter (fun d => d ≠ 0) }
        sockets := sampleHub.sockets.set 0 { buf := [], closed := true } } :=
  ⟨by decide, (handleUnregister_idempotent 3 sampleHub).1 (by decide),
   ⟨by decide, by decide⟩,
   (handleUnregister_idempotent 0 sampleHub).2.2 { buf := [], closed := false }
     (by decide) (by decide) rfl⟩

/-- C10: a timer tick handled while the status is InProgress stores `elapsed + 1`
(modulo 2^32) and publishes the snapshot made of the new elapsed value, the current
`CompletedRequests` and `TotalRequests` and the status text "InProgress"; when the snapshot
is encoded as `content` and the registry has open mailboxes, the tick completes with the
effect of a broadcast of `content`, and status, `CompletedRequests` and `TotalRequests` are
unchanged. A tick handled while the status is not InProgress changes nothing, and so
broadcasts nothing. -/
theorem handleTick_spec (lib : Library) (w : World) :
    (w.inst.getStatus = AttackStatusCodeInProgress →
      handleTick lib true w =
        publishStatusToOpenSockets lib
          { Status := "InProgress", Elapsed := (w.inst.elapsed + 1) % 2 ^ 32,
            RequestsCompleted := w.inst.CompletedRequests,
            TotalRequests := w.inst.TotalRequests,
            SuccessRate := "", P50 := 0, P95 := 0, P99 := 0 }
          { w with inst := { w.inst with elapsed := (w.inst.elapsed + 1) % 2 ^ 32 } }) ∧
    (∀ content : String, w.inst.getStatus = AttackStatusCodeInProgress → RegistryOK w →
      lib.MarshalIndent
          { Status := "InProgress", Elapsed := (w.inst.elapsed + 1) % 2 ^ 32,
            RequestsCompleted := w.inst.CompletedRequests,
            TotalRequests := w.inst.TotalRequests,
            SuccessRate := "", P50 := 0, P95 := 0, P99 := 0 } = .ok content →
      ∃ w1 : World,
        handleTick lib true w = .ok w1 ∧
        .ok w1 = broadcast content
          { w with inst := { w.inst with elapsed := (w.inst.elapsed + 1) % 2 ^ 32 } } ∧
        w1.inst.elapsed = (w.inst.elapsed + 1) % 2 ^ 32 ∧
        w1.inst.status = w.inst.status ∧
        w1.inst.CompletedRequests = w.inst.CompletedRequests ∧
        w1.inst.TotalRequests = w.inst.TotalRequests) ∧
    (∀ ok : Bool, w.inst.getStatus ≠ AttackStatusCodeInProgress →
      handleTick lib ok w = .ok w) := by
  have hpub : w.inst.getStatus = AttackStatusCodeInProgress →
      handleTick lib true w =
        publishStatusToOpenSockets lib
          { Status := "InProgress", Elapsed := (w.inst.elapsed + 1) % 2 ^ 32,
            RequestsCompleted := w.inst.CompletedRequests,
            TotalRequests := w.inst.TotalRequests,
            SuccessRate := "", P50 := 0, P95 := 0, P99 := 0 }
          { w with inst := { w.inst with elapsed := (w.inst.elapsed + 1) % 2 ^ 32 } } := by
    intro h
    simp [handleTick, h, getStatusMsg, LoadTestStatus.zero, AttackStatusCodeInProgress,
      AttackStatusCodeNotStarted, AttackStatusMsgInProgress]
  refine ⟨hpub, ?_, ?_⟩
  · intro content h hreg hm
    have hreg1 : RegistryOK
        { w with inst := { w.inst with elapsed := (w.inst.elapsed + 1) % 2 ^ 32 } } := hreg
    obtain ⟨w1, hrun, _, _, _, hframe⟩ := broadcast_spec content _ hreg1
    refine ⟨w1, ?_, hrun.symm, ?_, ?_, ?_, ?_⟩
    · rw [hpub h]
      unfold publishStatusToOpenSockets
      rw [hm]
      exact hrun
    all_goals (rw [hframe])
  · intro ok h
    simp [handleTick, h]

/-- Witness for C10: a tick in the sample hub (elapsed 7, InProgress) and a tick in the
initial world. -/
theorem handleTick_spec_witness :
    (sampleHub.inst.getStatus = AttackStatusCodeInProgress ∧ RegistryOK sampleHub) ∧
    (∃ w1 : World,
      handleTick sampleLibrary true sampleHub = .ok w1 ∧
      .ok w1 = broadcast "InProgress:8:3/50"
        { sampleHub with inst := { sampleHub.inst with
            elapsed := (sampleHub.inst.elapsed + 1) % 2 ^ 32 } } ∧
      w1.inst.elapsed = (sampleHub.inst.elapsed + 1) % 2 ^ 32 ∧
      w1.inst.status = sampleHub.inst.status ∧
      w1.inst.CompletedRequests = sampleHub.inst.CompletedRequests ∧
      w1.inst.TotalRequests = sampleHub.inst.TotalRequests) ∧
    World.init.inst.getStatus ≠ AttackStatusCodeInProgress ∧
    handleTick sampleLibrary true World.init = .ok World.init :=
  ⟨⟨by decide, by decide⟩,
   (handleTick_spec sampleLibrary sampleHub).2.1 "InProgress:8:3/50" (by decide) (by decide)
     rfl,
   by decide,
   (handleTick_spec sampleLibrary World.init).2.2 true (by decide)⟩

/-! ## The registry invariant -/

theorem registryOK_congr (w w1 : World) (hc : w1.inst.Connections = w.inst.Connections)
    (hs : w1.sockets = w.sockets) (h : RegistryOK w) : RegistryOK w1 := by
  unfold RegistryOK at *
  rw [hc, hs]
  exact h

theorem setPC_inst (i : Nat) (pc : PC) (w : World) : (setPC i pc w).inst = w.inst := by
  unfold setPC
  split <;> rfl

theorem setPC_sockets (i : Nat) (pc : PC) (w : World) : (setPC i pc w).sockets = w.sockets := by
  unfold setPC
  split <;> rfl

theorem broadcast_preserves (content : String) (w w1 : World) (h : RegistryOK w)
    (hs : broadcast content w = .ok w1) : RegistryOK w1 := by
  obtain ⟨w2, hrun, hconn, hin, _, _⟩ := broadcast_spec content w h
  have hw : w2 = w1 := by
    rw [hrun] at hs
    injection hs
  subst hw
  refine ⟨?_, ?_⟩
  · rw [hconn]
    exact List.Nodup.filter _ h.1
  · intro c hc
    rw [hconn] at hc
    obtain ⟨hcw, hroom⟩ := List.mem_filter.mp hc
    obtain ⟨ch, hch, _⟩ := registryOK_open w h c hcw
    have hr : ch.buf.length < sendBufferSize := by
      simpa [hasRoom, hch] using hroom
    rw [hin c hcw ch hch]
    simp [hr]

theorem publish_preserves (lib : Library) (st : LoadTestStatus) (w w1 : World)
    (h : RegistryOK w) (hs : publishStatusToOpenSockets lib st w = .ok w1) : RegistryOK w1 := by
  unfold publishStatusToOpenSockets at hs
  split at hs
  · exact Outcome.noConfusion hs
  · exact broadcast_preserves _ w w1 h hs

theorem publish_no_panic (lib : Library) (st : LoadTestStatus) (w : World)
    (h : RegistryOK w) : (publishStatusToOpenSockets lib st w).isPanic = false := by
  unfold publishStatusToOpenSockets
  split
  · rfl
  · rename_i content _
    obtain ⟨w1, hrun, _⟩ := broadcast_spec content w h
    rw [hrun]
    rfl

theorem registryOK_lt (w : World) (h : RegistryOK w) (c : Nat) (hc : c ∈ w.inst.Connections) :
    c < w.sockets.length := by
  obtain ⟨ch, hch, _⟩ := registryOK_open w h c hc
  rcases List.getElem?_eq_some.mp hch with ⟨hlt, _⟩
  exact hlt

theorem register_preserves (w : World) (h : RegistryOK w) :
    RegistryOK (handleRegister (newWsConnection w).1 (newWsConnection w).2) := by
  have hfresh : w.sockets.length ∉ w.inst.Connections := by
    intro hc
    exact Nat.lt_irrefl _ (registryOK_lt w h _ hc)
  refine ⟨?_, ?_⟩
  · simp only [handleRegister, newWsConnection, hfresh, if_false]
    exact List.Nodup.append h.1 (List.nodup_singleton _) (by simpa using hfresh)
  · intro c hc
    simp only [handleRegister, newWsConnection, hfresh, if_false] at hc ⊢
    rcases List.mem_append.mp hc with hold | hnew
    · have hlt := registryOK_lt w h c hold
      rw [List.getElem?_append_left hlt]
      exact h.2 c hold
    · have : c = w.sockets.length := by simpa using hnew
      subst this
      simp

theorem unregister_preserves (c : Nat) (w w1 : World) (h : RegistryOK w)
    (hs : handleUnregister c w = .ok w1) : RegistryOK w1 := by
  unfold handleUnregister at hs
  split at hs
  · unfold closeSend deleteConnection at hs
    split at hs
    · exact Outcome.noConfusion hs
    · split at hs
      · exact Outcome.noConfusion hs
      · injection hs with hs
        subst hs
        refine ⟨List.Nodup.filter _ h.1, ?_⟩
        intro d hd
        obtain ⟨hdw, hne⟩ := List.mem_filter.mp hd
        have hdc : d ≠ c := by simpa using hne
        show Option.map _ ((w.sockets.set c _)[d]?) = some false
        rw [List.getElem?_set_ne (Ne.symm hdc)]
        exact h.2 d hdw
  · injection hs with hs
    subst hs
    exact h

theorem unregister_no_panic (c : Nat) (w : World) (h : RegistryOK w) :
    (handleUnregister c w).isPanic = false := by
  unfold handleUnregister
  split
  · rename_i hc
    obtain ⟨ch, hch, hcl⟩ := registryOK_open w h c hc
    have : (deleteConnection c w).sockets[c]? = some ch := hch
    simp [closeSend, this, hcl, Outcome.isPanic]
  · rfl

theorem writePump_preserves (c : Nat) (w : World) (h : RegistryOK w) :
    RegistryOK (writePumpReceive c w) := by
  unfold writePumpReceive
  split
  · exact h
  · rename_i ch hch
    refine ⟨h.1, ?_⟩
    intro d hd
    show Option.map _ ((w.sockets.set c _)[d]?) = some false
    by_cases hdc : d = c
    · subst hdc
      have hlt := registryOK_lt w h d hd
      rw [List.getElem?_set_self hlt]
      have := h.2 d hd
      rw [hch] at this
      simpa using this
    · rw [List.getElem?_set_ne (Ne.symm hdc)]
      exact h.2 d hd

theorem handleCancel_view (a b : Bool) (w : World) :
    (handleCancel a b w).inst.Connections = w.inst.Connections ∧
    (handleCancel a b w).sockets = w.sockets := by
  unfold handleCancel
  split
  · split
    · exact ⟨rfl, rfl⟩
    · exact ⟨rfl, rfl⟩
  · exact ⟨rfl, rfl⟩

theorem deliverCancel_view (w : World) :
    (deliverCancel w).inst.Connections = w.inst.Connections ∧
    (deliverCancel w).sockets = w.sockets := by
  unfold deliverCancel
  split
  · exact ⟨rfl, rfl⟩
  · exact handleCancel_view _ _ _

theorem runnerStep_view (lib : Library) (i : Nat) (w w1 : World)
    (hs : runnerStep lib i w = .ok w1) :
    w1.inst.Connections = w.inst.Connections ∧ w1.sockets = w.sockets := by
  unfold runnerStep at hs
  split at hs
  · injection hs with hs
    subst hs
    exact ⟨rfl, rfl⟩
  · split at hs
    · injection hs with hs
      subst hs
      simp [setPC_inst, setPC_sockets]
    · split at hs
      · injection hs with hs
        subst hs
        simp [setPC_inst, setPC_sockets]
      · injection hs with hs
        subst hs
        simp [setPC_inst, setPC_sockets, startAttackAccept, vegetaAttack.setStatus]
    · unfold startAttackSetup at hs
      simp only [Outcome.bind] at hs
      split at hs
      · rename_i heq
        split at heq
        · exact Outcome.noConfusion heq
        · injection heq with heq
          subst heq
          injection hs with hs
          subst hs
          simp [setPC_inst, setPC_sockets, vegetaAttack.setCurrentAttacker]
      · exact Outcome.noConfusion hs
      · exact Outcome.noConfusion hs
    · injection hs with hs
      subst hs
      simp [setPC_inst, setPC_sockets, startAttackDeferred, vegetaAttack.setStatus]
    · injection hs with hs
      subst hs
      exact ⟨rfl, rfl⟩

theorem runnerResult_view (i : Nat) (res : vegeta.Result) (w w1 : World)
    (hs : runnerResult i res w = .ok w1) :
    w1.inst.Connections = w.inst.Connections ∧ w1.sockets = w.sockets := by
  unfold runnerResult at hs
  split at hs
  · injection hs with hs
    subst hs
    exact ⟨rfl, rfl⟩
  · split at hs
    · unfold startAttackResult at hs
      simp only [Outcome.bind] at hs
      split at hs
      · rename_i heq
        split at heq
        · exact Outcome.noConfusion heq
        · injection heq with heq
          subst heq
          injection hs with hs
          subst hs
          simp [setPC_inst, setPC_sockets]
      · exact Outcome.noConfusion hs
      · exact Outcome.noConfusion hs
    · injection hs with hs
      subst hs
      exact ⟨rfl, rfl⟩

theorem startAttackFinalize_view (lib : Library) (p : AttackParams)
    (results : List vegeta.Result) (w : World) (f : LoadTestStatus) (w1 : World)
    (hs : startAttackFinalize lib p results w = .ok (f, w1)) :
    w1.inst.Connections = w.inst.Connections ∧ w1.sockets = w.sockets := by
  unfold startAttackFinalize at hs
  simp only at hs
  split at hs
  · exact Outcome.noConfusion hs
  · injection hs with hs
    injection hs with _ hs
    subst hs
    by_cases hst : w.inst.getStatus = AttackStatusCodeInProgress
    · simp [hst, vegetaAttack.setLatestVegetaMetrics, vegetaAttack.setCurrentResults,
        vegetaAttack.setStatus]
    · simp [hst, vegetaAttack.setLatestVegetaMetrics, vegetaAttack.setCurrentResults]

theorem runnerStreamEnd_view (lib : Library) (i : Nat) (w w1 : World)
    (hs : runnerStreamEnd lib i w = .ok w1) :
    w1.inst.Connections = w.inst.Connections ∧ w1.sockets = w.sockets := by
  unfold runnerStreamEnd at hs
  split at hs
  · injection hs with hs
    subst hs
    exact ⟨rfl, rfl⟩
  · split at hs
    · simp only [Outcome.bind] at hs
      split at hs
      · rename_i fw heq
        injection hs with hs
        subst hs
        have := startAttackFinalize_view lib _ _ w fw.1 fw.2 heq
        simpa [setPC_inst, setPC_sockets] using this
      · exact Outcome.noConfusion hs
      · exact Outcome.noConfusion hs
    · injection hs with hs
      subst hs
      exact ⟨rfl, rfl⟩

theorem handleTick_preserves (lib : Library) (ok : Bool) (w w1 : World) (h : RegistryOK w)
    (hs : handleTick lib ok w = .ok w1) : RegistryOK w1 := by
  unfold handleTick at hs
  simp only at hs
  split at hs
  · exact publish_preserves lib _ _ w1
      (registryOK_congr w
        { w with inst := { w.inst with elapsed := (w.inst.elapsed + 1) % 2 ^ 32 } }
        rfl rfl h) hs
  · injection hs with hs
    subst hs
    exact h

theorem handleTick_no_panic (lib : Library) (ok : Bool) (w : World) (h : RegistryOK w) :
    (handleTick lib ok w).isPanic = false := by
  unfold handleTick
  simp only
  split
  · exact publish_no_panic lib _ _
      (registryOK_congr w
        { w with inst := { w.inst with elapsed := (w.inst.elapsed + 1) % 2 ^ 32 } }
        rfl rfl h)
  · rfl

theorem deliverFinalResults_preserves (lib : Library) (i : Nat) (w w1 : World)
    (h : RegistryOK w) (hs : deliverFinalResults lib i w = .ok w1) : RegistryOK w1 := by
  unfold deliverFinalResults at hs
  split at hs
  · injection hs with hs
    subst hs
    exact h
  · split at hs
    · exact publish_preserves lib _ _ w1
        (registryOK_congr w _ (by rw [setPC_inst]) (setPC_sockets _ _ _) h) hs
    · injection hs with hs
      subst hs
      exact h

theorem deliverFinalResults_no_panic (lib : Library) (i : Nat) (w : World)
    (h : RegistryOK w) : (deliverFinalResults lib i w).isPanic = false := by
  unfold deliverFinalResults
  split
  · rfl
  · split
    · exact publish_no_panic lib _ _
        (registryOK_congr w _ (by rw [setPC_inst]) (setPC_sockets _ _ _) h)
    · rfl

theorem handleIncoming_preserves (m : String) (w w1 : World) (h : RegistryOK w)
    (hs : handleIncoming m w = .ok w1) : RegistryOK w1 := by
  unfold handleIncoming at hs
  split at hs
  · exact broadcast_preserves m w w1 h hs
  · split at hs
    · injection hs with hs
      subst hs
      exact registryOK_congr w _ rfl rfl h
    · injection hs with hs
      subst hs
      exact h

theorem handleIncoming_no_panic (m : String) (w : World) (h : RegistryOK w) :
    (handleIncoming m w).isPanic = false := by
  unfold handleIncoming
  split
  · obtain ⟨w1, hrun, _⟩ := broadcast_spec m w h
    rw [hrun]
    rfl
  · split <;> rfl

/-- Every step keeps the registry a set of connections with open mailboxes. -/
theorem step_preserves (lib : Library) (e : Event) (w w1 : World) (h : RegistryOK w)
    (hs : step lib e w = .ok w1) : RegistryOK w1 := by
  cases e with
  | tick ok => exact handleTick_preserves lib ok w w1 h hs
  | finalResults i => exact deliverFinalResults_preserves lib i w w1 h hs
  | cancel =>
    injection hs with hs
    subst hs
    exact registryOK_congr w _ (deliverCancel_view w).1 (deliverCancel_view w).2 h
  | register =>
    injection hs with hs
    subst hs
    exact register_preserves w h
  | unregister c => exact unregister_preserves c w w1 h hs
  | incoming m => exact handleIncoming_preserves m w w1 h hs
  | writePump c =>
    injection hs with hs
    subst hs
    exact writePump_preserves c w h
  | startAttack p =>
    injection hs with hs
    subst hs
    exact registryOK_congr w _ rfl rfl h
  | runner i =>
    have := runnerStep_view lib i w w1 hs
    exact registryOK_congr w w1 this.1 this.2 h
  | result i res =>
    have := runnerResult_view i res w w1 hs
    exact registryOK_congr w w1 this.1 this.2 h
  | streamEnd i =>
    have := runnerStreamEnd_view lib i w w1 hs
    exact registryOK_congr w w1 this.1 this.2 h

theorem reachable_registryOK (lib : Library) (w : World) (h : Reachable lib w) :
    RegistryOK w := by
  induction h with
  | init => exact ⟨List.nodup_nil, by intro c hc; cases hc⟩
  | step e w w1 _ hs ih => exact step_preserves lib e w w1 ih hs

/-- A completed run of events from a reachable world ends in a reachable world. -/
theorem reachable_run (lib : Library) (es : List Event) :
    ∀ w w1 : World, Reachable lib w → run lib es w = .ok w1 → Reachable lib w1 := by
  induction es with
  | nil =>
    intro w w1 hw hs
    injection hs with hs
    subst hs
    exact hw
  | cons e es ih =>
    intro w w1 hw hs
    simp only [run] at hs
    cases hstep : step lib e w with
    | ok w2 =>
      rw [hstep] at hs
      exact ih w2 w1 (Reachable.step e w w2 hw hstep) hs
    | exit err =>
      rw [hstep] at hs
      exact Outcome.noConfusion hs
    | panic msg =>
      rw [hstep] at hs
      exact Outcome.noConfusion hs

/-- C8: in every world reachable through the events of the process, started from the
initial world, every connection in the registry is a distinct pointer whose mailbox is
open; hence no event handled by the coordinator loop panics, in particular none closes a
closed mailbox or sends on one; and a connection whose mailbox is closed (evicted or
unregistered before) is out of the registry, so that a later `Unregister` for it changes
nothing: its mailbox was closed once. -/
theorem registry_mailboxes_open (lib : Library) (w : World) (h : Reachable lib w) :
    RegistryOK w ∧
    (∀ e : Event, e.coordinator = true → (step lib e w).isPanic = false) ∧
    (∀ c ch, w.sockets[c]? = some ch → ch.closed = true →
      c ∉ w.inst.Connections ∧ handleUnregister c w = .ok w) := by
  have hreg := reachable_registryOK lib w h
  refine ⟨hreg, ?_, ?_⟩
  · intro e he
    cases e with
    | tick ok => exact handleTick_no_panic lib ok w hreg
    | finalResults i => exact deliverFinalResults_no_panic lib i w hreg
    | cancel => rfl
    | register => rfl
    | unregister c => exact unregister_no_panic c w hreg
    | incoming m => exact handleIncoming_no_panic m w hreg
    | writePump c => exact Bool.noConfusion he
    | startAttack p => exact Bool.noConfusion he
    | runner i => exact Bool.noConfusion he
    | result i res => exact Bool.noConfusion he
    | streamEnd i => exact Bool.noConfusion he
  · intro c ch hch hcl
    have hnot : c ∉ w.inst.Connections := by
      intro hc
      have := hreg.2 c hc
      rw [hch] at this
      simp [hcl] at this
    exact ⟨hnot, by simp [handleUnregister, hnot]⟩

set_option maxRecDepth 100000 in
/-- The eviction run, evaluated. -/
theorem evictionRun_eq : run sampleLibrary evictionEvents World.init = .ok evictedWorld := by
  decide!

set_option maxRecDepth 100000 in
/-- Witness for C8: the world after the eviction run is reachable; its only connection was
evicted by the 257th tick, so the registry is empty and the mailbox, with its 256 messages,
closed; the `Unregister` that its read half sends later changes nothing. -/
theorem registry_mailboxes_open_witness :
    Reachable sampleLibrary evictedWorld ∧
    evictedWorld.inst.Connections = [] ∧
    evictedWorld.sockets.map (fun ch => (ch.buf.length, ch.closed)) = [(256, true)] ∧
    RegistryOK evictedWorld ∧
    (∀ e : Event, e.coordinator = true → (step sampleLibrary e evictedWorld).isPanic = false) ∧
    (∀ c ch, evictedWorld.sockets[c]? = some ch → ch.closed = true →
      c ∉ evictedWorld.inst.Connections ∧ handleUnregister c evictedWorld = .ok evictedWorld) :=
  ⟨reachable_run sampleLibrary evictionEvents World.init _ Reachable.init evictionRun_eq,
    rfl, by decide,
    registry_mailboxes_open sampleLibrary evictedWorld
      (reachable_run sampleLibrary evictionEvents World.init _ Reachable.init evictionRun_eq)⟩

/-! ## Attack runner: accepted starts and the summary -/

theorem toUint32_wrapInt64 (x : Int) : toUint32 (wrapInt64 x) = (x % 2 ^ 32).toNat := by
  unfold toUint32 wrapInt64
  congr 1
  norm_num
  omega

/-- C11: for every start issued while the status is not InProgress, with any rate `r` and
duration `d`, the invocation passes the check of line 178 and right after lines 183-194
the status is InProgress, `elapsed` is 0, `CompletedRequests` is 0 and `TotalRequests` is
`r * d` as an unsigned 32-bit value, that is `r * d mod 2^32`; nothing else has changed.
For `r = 10` and `d = 5` the stored value is 50. -/
theorem startAttack_accept_resets (lib : Library) (p : AttackParams) (w : World)
    (h : w.inst.getStatus ≠ AttackStatusCodeInProgress) :
    run lib [.startAttack p, .runner w.runners.length, .runner w.runners.length] w
      = .ok { w with
          inst := { w.inst with
            status := AttackStatusCodeInProgress
            elapsed := 0
            CompletedRequests := 0
            TotalRequests := ((p.requestsPerSecond * p.duration) % 2 ^ 32).toNat }
          runners := w.runners ++ [{ params := p, pc := .accepted }] } ∧
    totalRequestsOf { p with requestsPerSecond := 10, duration := 5 } = 50 := by
  have h1 : ¬ w.inst.status = AttackStatusCodeInProgress := h
  refine ⟨?_, rfl⟩
  simp only [run, step, Outcome.bind, runnerStep, setPC, vegetaAttack.getStatus,
    List.getElem?_concat_length, set_length_append_singleton, h1, if_false,
    startAttackAccept, vegetaAttack.setStatus, totalRequestsOf, toUint32_wrapInt64]

/-- Witness for C11: the first start of the process, with rate 10 and duration 5. -/
theorem startAttack_accept_resets_witness :
    World.init.inst.getStatus ≠ AttackStatusCodeInProgress ∧
    (run sampleLibrary [.startAttack sampleParams, .runner 0, .runner 0] World.init
      = .ok { World.init with
          inst := { World.init.inst with
            status := AttackStatusCodeInProgress
            elapsed := 0
            CompletedRequests := 0
            TotalRequests :=
              ((sampleParams.requestsPerSecond * sampleParams.duration) % 2 ^ 32).toNat }
          runners := World.init.runners ++ [{ params := sampleParams, pc := .accepted }] } ∧
    totalRequestsOf { sampleParams with requestsPerSecond := 10, duration := 5 } = 50) :=
  ⟨by decide, startAttack_accept_resets sampleLibrary sampleParams World.init (by decide)⟩

/-- C13 (evaluation at the failing input): a run whose metrics report a duration of
1400 ms gets `Elapsed = 10` in its final summary, not 14: line 262 divides the duration by
one second, which leaves 1, before it multiplies by 10. -/
theorem finalSummary_elapsed_truncated :
    ∃ (w : World) (f : LoadTestStatus),
      run sampleLibrary fourteenResultsEvents World.init = .ok w ∧
      w.runners.map (fun r => r.pc) = [PC.sending f] ∧
      sampleLibrary.Duration (List.replicate 14 sampleResult) = 1400 * timeMillisecond ∧
      f.RequestsCompleted = 14 ∧
      f.Elapsed = 10 := by
  refine ⟨_, _, rfl, rfl, ?_, ?_, ?_⟩ <;> decide

/-- C15: whatever the result buffer held before, after `setCurrentResults(r)` the buffer
is `r` and `getCurrentResults()` returns `r`, the same outcomes in the same order; the
other fields of the singleton are untouched. Reading is a function of the record: it
returns a copy and has no effect on the stored buffer. -/
theorem setCurrentResults_getCurrentResults (v : vegetaAttack) (r : List vegeta.Result) :
    (v.setCurrentResults r).getCurrentResults = r ∧
    (v.setCurrentResults r).CurrentResults = r ∧
    v.setCurrentResults r = { v with CurrentResults := r } ∧
    (v.setCurrentResults r).getCurrentResults.length = r.length := by
  simp [vegetaAttack.setCurrentResults, vegetaAttack.getCurrentResults]

/-- C17 (evaluation at the failing input): two invocations issued with status NotStarted
both read NotStarted at line 175 before either reaches line 187; both pass the check of
line 178, both are accepted, and the second overwrites the counters that the first has
stored (`TotalRequests` is 21, the product of the second call, not 50). -/
theorem racing_starts_both_accepted :
    ∃ w : World,
      run sampleLibrary racingStartEvents World.init = .ok w ∧
      w.runners.map (fun r => r.pc) = [PC.accepted, PC.accepted] ∧
      activeRunners w = 2 ∧
      w.inst.TotalRequests = 21 := by
  refine ⟨_, rfl, ?_, ?_, ?_⟩ <;> decide

/-! ## Coordinator loop: completion delivery -/

/-- C14: the handling of a completion delivery is `publishStatusToOpenSockets` applied to
the delivered summary, whatever the status is. When the summary is encoded as `content` and
the registry has open mailboxes, the handling completes with the effect of a broadcast of
`content`: it is queued at the tail of every registered mailbox that has room, the
connections with a full mailbox are evicted; the status, `elapsed`, `CompletedRequests` and
`TotalRequests` are unchanged. -/
theorem handleFinalResults_spec (lib : Library) (results : LoadTestStatus) (w : World) :
    handleFinalResults lib results w = publishStatusToOpenSockets lib results w ∧
    (∀ content : String, lib.MarshalIndent results = .ok content → RegistryOK w →
      ∃ w1 : World,
        handleFinalResults lib results w = .ok w1 ∧
        .ok w1 = broadcast content w ∧
        w1.inst.Connections = w.inst.Connections.filter (fun c => hasRoom w c) ∧
        (∀ c ∈ w.inst.Connections, ∀ ch, w.sockets[c]? = some ch →
          w1.sockets[c]? = some
            (if ch.buf.length < sendBufferSize
             then { buf := ch.buf ++ [content], closed := false }
             else { buf := ch.buf, closed := true })) ∧
        w1.inst.status = w.inst.status ∧
        w1.inst.elapsed = w.inst.elapsed ∧
        w1.inst.CompletedRequests = w.inst.CompletedRequests ∧
        w1.inst.TotalRequests = w.inst.TotalRequests) := by
  refine ⟨rfl, ?_⟩
  intro content hm hreg
  obtain ⟨w1, hrun, hconn, hin, _, hframe⟩ := broadcast_spec content w hreg
  refine ⟨w1, ?_, hrun.symm, hconn, hin, ?_, ?_, ?_, ?_⟩
  · unfold handleFinalResults publishStatusToOpenSockets
    rw [hm]
    exact hrun
  all_goals (rw [hframe])

/-- Witness for C14: a summary with Status "Completed" delivered to the sample hub, whose
status is InProgress. -/
theorem handleFinalResults_spec_witness :
    (sampleLibrary.MarshalIndent sampleSummary = .ok "Completed:50:50/50" ∧
      RegistryOK sampleHub ∧ sampleHub.inst.status = AttackStatusCodeInProgress) ∧
    ∃ w1 : World,
      handleFinalResults sampleLibrary sampleSummary sampleHub = .ok w1 ∧
      .ok w1 = broadcast "Completed:50:50/50" sampleHub ∧
      w1.inst.Connections = sampleHub.inst.Connections.filter (fun c => hasRoom sampleHub c) ∧
      (∀ c ∈ sampleHub.inst.Connections, ∀ ch, sampleHub.sockets[c]? = some ch →
        w1.sockets[c]? = some
          (if ch.buf.length < sendBufferSize
           then { buf := ch.buf ++ ["Completed:50:50/50"], closed := false }
           else { buf := ch.buf, closed := true })) ∧
      w1.inst.status = sampleHub.inst.status ∧
      w1.inst.elapsed = sampleHub.inst.elapsed ∧
      w1.inst.CompletedRequests = sampleHub.inst.CompletedRequests ∧
      w1.inst.TotalRequests = sampleHub.inst.TotalRequests :=
  ⟨⟨rfl, by decide, by decide⟩,
   (handleFinalResults_spec sampleLibrary sampleSummary sampleHub).2 "Completed:50:50/50"
     rfl (by decide)⟩

/-! ## Attack runner: the result loop -/

set_option maxRecDepth 100000 in
/-- C12 (counterexample): two uncancelled runs for which the claim fails. First, a run
with rate 65536 and duration 65536 that consumes one outcome: its summary has
`TotalRequests = 0`, not `rate * duration`. Second, a run accepted while the cancelled
runner 0 is still in its loop: after a late outcome of runner 0, `CompletedRequests` is 1
although runner 1 has consumed nothing, and after runner 1 has consumed its two outcomes
the summary of its run has `RequestsCompleted = 3`. -/
theorem resultLoop_counts_counterexample :
    (∃ (w : World) (f : LoadTestStatus),
      run largeMemoryLibrary wrappingRunEvents World.init = .ok w ∧
      w.runners.map (fun r => r.pc) = [PC.sending f] ∧
      f.Status = "Completed" ∧ f.RequestsCompleted = 1 ∧
      f.TotalRequests = 0 ∧
      wrappingParams.requestsPerSecond * wrappingParams.duration = 4294967296) ∧
    (∃ (w1 w2 : World) (f : LoadTestStatus),
      run sampleLibrary lateResultEvents World.init = .ok w1 ∧
      w1.runners.map (fun r => r.pc) =
        [PC.attacking 0 [sampleResult], PC.attacking 1 []] ∧
      w1.inst.status = AttackStatusCodeInProgress ∧
      w1.inst.CompletedRequests = 1 ∧
      run sampleLibrary secondRunEvents w1 = .ok w2 ∧
      w2.runners.map (fun r => r.pc) = [PC.attacking 0 [sampleResult], PC.sending f] ∧
      w2.inst.CurrentResults = [sampleResult, sampleResult] ∧
      f.Status = "Completed" ∧
      f.RequestsCompleted = 3) := by
  refine ⟨⟨_, _, rfl, rfl, ?_, ?_, ?_, ?_⟩, ⟨_, _, _, rfl, ?_, ?_, ?_, rfl, rfl, ?_, ?_, ?_⟩⟩ <;>
    decide

theorem SameRun.refl (w : World) : SameRun w w :=
  ⟨rfl, rfl, rfl, rfl, rfl⟩

theorem SameRun.trans (w w1 w2 : World) (h1 : SameRun w w1) (h2 : SameRun w1 w2) :
    SameRun w w2 :=
  ⟨h2.1.trans h1.1, h2.2.1.trans h1.2.1, h2.2.2.1.trans h1.2.2.1,
    h2.2.2.2.1.trans h1.2.2.2.1, h2.2.2.2.2.trans h1.2.2.2.2⟩

theorem closeSend_sameRun (c : Nat) (w w1 : World) (hs : closeSend c w = .ok w1) :
    SameRun w w1 := by
  unfold closeSend at hs
  split at hs
  · exact Outcome.noConfusion hs
  · split at hs
    · exact Outcome.noConfusion hs
    · injection hs with hs
      subst hs
      exact ⟨rfl, rfl, rfl, rfl, rfl⟩

theorem sendOrEvict_sameRun (content : String) (c : Nat) (w w1 : World)
    (hs : sendOrEvict content c w = .ok w1) : SameRun w w1 := by
  unfold sendOrEvict at hs
  split at hs
  · exact Outcome.noConfusion hs
  · split at hs
    · exact Outcome.noConfusion hs
    · split at hs
      · injection hs with hs
        subst hs
        exact ⟨rfl, rfl, rfl, rfl, rfl⟩
      · cases hcl : closeSend c w with
        | ok w2 =>
          rw [hcl] at hs
          simp only [Outcome.bind] at hs
          injection hs with hs
          subst hs
          exact closeSend_sameRun c w w2 hcl
        | exit e =>
          rw [hcl] at hs
          exact Outcome.noConfusion hs
        | panic e =>
          rw [hcl] at hs
          exact Outcome.noConfusion hs

theorem rangeConnections_sameRun (content : String) (cs : List Nat) :
    ∀ w w1 : World, rangeConnections (sendOrEvict content) cs w = .ok w1 → SameRun w w1 := by
  induction cs with
  | nil =>
    intro w w1 hs
    injection hs with hs
    subst hs
    exact SameRun.refl w
  | cons c cs ih =>
    intro w w1 hs
    simp only [rangeConnections] at hs
    cases hc : sendOrEvict content c w with
    | ok w2 =>
      rw [hc] at hs
      exact SameRun.trans w w2 w1 (sendOrEvict_sameRun content c w w2 hc) (ih w2 w1 hs)
    | exit e =>
      rw [hc] at hs
      exact Outcome.noConfusion hs
    | panic e =>
      rw [hc] at hs
      exact Outcome.noConfusion hs

theorem publish_sameRun (lib : Library) (st : LoadTestStatus) (w w1 : World)
    (hs : publishStatusToOpenSockets lib st w = .ok w1) : SameRun w w1 := by
  unfold publishStatusToOpenSockets at hs
  split at hs
  · exact Outcome.noConfusion hs
  · exact rangeConnections_sameRun _ _ w w1 hs

/-- A quiet event leaves the runners, the metrics, the status and the counters alone. -/
theorem quiet_step_sameRun (lib : Library) (e : Event) (w w1 : World)
    (hq : quietEvent e = true) (hs : step lib e w = .ok w1) : SameRun w w1 := by
  cases e with
  | tick ok =>
    simp only [step, handleTick] at hs
    split at hs
    · exact publish_sameRun lib _
        { w with inst := { w.inst with elapsed := (w.inst.elapsed + 1) % 2 ^ 32 } } w1 hs
    · injection hs with hs
      subst hs
      exact SameRun.refl w
  | register =>
    injection hs with hs
    subst hs
    exact ⟨rfl, rfl, rfl, rfl, rfl⟩
  | unregister c =>
    simp only [step, handleUnregister] at hs
    split at hs
    · exact closeSend_sameRun c (deleteConnection c w) w1 hs
    · injection hs with hs
      subst hs
      exact SameRun.refl w
  | incoming m =>
    simp only [step, handleIncoming] at hs
    split at hs
    · exact rangeConnections_sameRun m _ w w1 hs
    · split at hs
      · injection hs with hs
        subst hs
        exact ⟨rfl, rfl, rfl, rfl, rfl⟩
      · injection hs with hs
        subst hs
        exact SameRun.refl w
  | writePump c =>
    injection hs with hs
    subst hs
    unfold writePumpReceive
    split
    · exact SameRun.refl w
    · exact ⟨rfl, rfl, rfl, rfl, rfl⟩
  | finalResults i => exact Bool.noConfusion hq
  | cancel => exact Bool.noConfusion hq
  | startAttack p => exact Bool.noConfusion hq
  | runner i => exact Bool.noConfusion hq
  | result i res => exact Bool.noConfusion hq
  | streamEnd i => exact Bool.noConfusion hq

theorem LoopInv.sameRun (i : Nat) (p : AttackParams) (a : Nat) (rs : List vegeta.Result)
    (w w1 : World) (h : LoopInv i p a rs w) (hs : SameRun w w1) : LoopInv i p a rs w1 := by
  obtain ⟨h1, h2, h3, h4⟩ := h
  obtain ⟨s1, s2, s3, s4, _⟩ := hs
  exact ⟨by rw [s1]; exact h1, by rw [s2]; exact h2, by rw [s3]; exact h3,
    by rw [s4]; exact h4⟩

theorem toUint32_requests (n : Nat) : toUint32 ((n % 2 ^ 64 : Nat) : Int) = n % 2 ^ 32 := by
  unfold toUint32
  omega

theorem setPC_runners_get (i : Nat) (pc : PC) (w : World) (r : Runner)
    (h : w.runners[i]? = some r) :
    (setPC i pc w).runners[i]? = some { params := r.params, pc := pc } := by
  have hlt : i < w.runners.length := by
    rcases List.getElem?_eq_some.mp h with ⟨hlt, _⟩
    exact hlt
  simp [setPC, h, List.getElem?_set_self hlt]

/-- One iteration of the result loop of a runner that is alone with its metrics. -/
theorem result_step_loopInv (lib : Library) (i : Nat) (p : AttackParams) (a : Nat)
    (rs : List vegeta.Result) (res : vegeta.Result) (w : World) (h : LoopInv i p a rs w) :
    ∃ w1 : World,
      step lib (.result i res) w = .ok w1 ∧
      LoopInv i p a (rs ++ [res]) w1 ∧
      w1.inst.TotalRequests = w.inst.TotalRequests := by
  obtain ⟨h1, h2, h3, _⟩ := h
  have hstep : step lib (.result i res) w =
      .ok (setPC i (.attacking a (rs ++ [res]))
        { w with inst := { w.inst with
            Metrics := some { added := rs ++ [res], closed := false }
            CompletedRequests :=
              toUint32 (((rs ++ [res]).length % 2 ^ 64 : Nat) : Int) } }) := by
    simp [step, runnerResult, h1, startAttackResult, h2, Outcome.bind, vegeta.Metrics.Add,
      vegeta.Metrics.Requests]
  refine ⟨_, hstep, ⟨?_, ?_, ?_, ?_⟩, ?_⟩
  · exact setPC_runners_get i (.attacking a (rs ++ [res]))
      { w with inst := { w.inst with
          Metrics := some { added := rs ++ [res], closed := false }
          CompletedRequests :=
            toUint32 (((rs ++ [res]).length % 2 ^ 64 : Nat) : Int) } }
      { params := p, pc := .attacking a rs } h1
  · rw [setPC_inst]
  · rw [setPC_inst]
    exact h3
  · rw [setPC_inst]
    exact toUint32_requests _
  · rw [setPC_inst]

theorem resultsOf_cons_quiet (e : Event) (es : List Event) (hq : quietEvent e = true) :
    resultsOf (e :: es) = resultsOf es := by
  cases e <;> first | rfl | exact Bool.noConfusion hq

/-- A trace of an uncancelled run of runner `i`, alone with its metrics: after every such
trace that completes, the runner has consumed exactly the outcomes of the trace. -/
theorem run_loopInv (lib : Library) (i : Nat) (p : AttackParams) (a : Nat)
    (es : List Event) :
    ∀ (rs : List vegeta.Result) (w w1 : World), LoopInv i p a rs w →
      (∀ e ∈ es, ownOrQuiet i e = true) → run lib es w = .ok w1 →
      LoopInv i p a (rs ++ resultsOf es) w1 ∧
      w1.inst.TotalRequests = w.inst.TotalRequests := by
  induction es with
  | nil =>
    intro rs w w1 h _ hs
    injection hs with hs
    subst hs
    exact ⟨by simpa [resultsOf] using h, rfl⟩
  | cons e es ih =>
    intro rs w w1 h hall hs
    have he : ownOrQuiet i e = true := hall e (List.mem_cons_self e es)
    have htail : ∀ e1 ∈ es, ownOrQuiet i e1 = true :=
      fun e1 h1 => hall e1 (List.mem_cons_of_mem e h1)
    simp only [run] at hs
    by_cases hq : quietEvent e = true
    · cases hstep : step lib e w with
      | ok w2 =>
        rw [hstep] at hs
        have hsame := quiet_step_sameRun lib e w w2 hq hstep
        obtain ⟨hinv, htot⟩ := ih rs w2 w1 (LoopInv.sameRun i p a rs w w2 h hsame) htail hs
        rw [resultsOf_cons_quiet e es hq]
        exact ⟨hinv, htot.trans hsame.2.2.2.2⟩
      | exit err =>
        rw [hstep] at hs
        exact Outcome.noConfusion hs
      | panic msg =>
        rw [hstep] at hs
        exact Outcome.noConfusion hs
    · cases e with
      | result j res =>
        have hj : j = i := by simpa [ownOrQuiet] using he
        subst hj
        obtain ⟨w2, hstep, hinv2, htot2⟩ := result_step_loopInv lib j p a rs res w h
        rw [hstep] at hs
        obtain ⟨hinv, htot⟩ := ih (rs ++ [res]) w2 w1 hinv2 htail hs
        refine ⟨?_, htot.trans htot2⟩
        simpa [resultsOf] using hinv
      | tick ok => exact absurd rfl hq
      | register => exact absurd rfl hq
      | unregister c => exact absurd rfl hq
      | incoming m => exact absurd rfl hq
      | writePump c => exact absurd rfl hq
      | finalResults k => exact Bool.noConfusion he
      | cancel => exact Bool.noConfusion he
      | startAttack q => exact Bool.noConfusion he
      | runner k => exact Bool.noConfusion he
      | streamEnd k => exact Bool.noConfusion he

/-- The outcomes of a runner alone with its metrics are all consumed: the loop never
blocks the run and never panics. -/
theorem run_results_ok (lib : Library) (i : Nat) (p : AttackParams) (a : Nat)
    (rs1 : List vegeta.Result) :
    ∀ (rs : List vegeta.Result) (w : World), LoopInv i p a rs w →
      ∃ w1 : World, run lib (rs1.map (Event.result i)) w = .ok w1 := by
  induction rs1 with
  | nil =>
    intro rs w _
    exact ⟨w, rfl⟩
  | cons res rs1 ih =>
    intro rs w h
    obtain ⟨w2, hstep, hinv2, _⟩ := result_step_loopInv lib i p a rs res w h
    obtain ⟨w1, hrun⟩ := ih (rs ++ [res]) w2 hinv2
    exact ⟨w1, by simp only [List.map, run, hstep, Outcome.bind, hrun]⟩

/-- The finalization of a runner alone with its metrics whose status is still
InProgress. -/
theorem streamEnd_loopInv (lib : Library) (i : Nat) (p : AttackParams) (a : Nat)
    (rs : List vegeta.Result) (w : World) (h : LoopInv i p a rs w) :
    ∃ (w2 : World) (f : LoadTestStatus),
      step lib (.streamEnd i) w = .ok w2 ∧
      w2.runners[i]? = some { params := p, pc := .sending f } ∧
      w2.inst.status = AttackStatusCodeCompleted ∧
      w2.inst.TotalRequests = w.inst.TotalRequests ∧
      w2.inst.FinalMetrics = f ∧
      f.RequestsCompleted = rs.length % 2 ^ 32 ∧
      f.TotalRequests = ((p.requestsPerSecond * p.duration) % 2 ^ 32).toNat ∧
      f.Status = "Completed" := by
  obtain ⟨h1, h2, h3, _⟩ := h
  have hst : w.inst.getStatus = AttackStatusCodeInProgress := h3
  have hm : (w.inst.setStatus AttackStatusCodeCompleted).Metrics
      = some { added := rs, closed := false } := h2
  have hstep : ∃ (w3 : World) (f : LoadTestStatus),
      startAttackFinalize lib p rs w = .ok (f, w3) ∧
      w3.runners = w.runners ∧
      w3.inst.status = AttackStatusCodeCompleted ∧
      w3.inst.TotalRequests = w.inst.TotalRequests ∧
      w3.inst.FinalMetrics = f ∧
      f.RequestsCompleted = rs.length % 2 ^ 32 ∧
      f.TotalRequests = ((p.requestsPerSecond * p.duration) % 2 ^ 32).toNat ∧
      f.Status = "Completed" := by
    unfold startAttackFinalize
    simp only [hst, if_true, hm]
    refine ⟨_, _, rfl, rfl, rfl, rfl, rfl, ?_, ?_, ?_⟩
    · exact toUint32_requests _
    · exact toUint32_wrapInt64 _
    · rfl
  obtain ⟨w3, f, hfin, hr, hs3, ht3, hf3, hrc, htr, hsm⟩ := hstep
  have h1w3 : w3.runners[i]? = some { params := p, pc := .attacking a rs } := by
    rw [hr]
    exact h1
  refine ⟨setPC i (.sending f) w3, f, ?_, ?_, ?_, ?_, ?_, hrc, htr, hsm⟩
  · simp [step, runnerStreamEnd, h1, hfin, Outcome.bind]
  · exact setPC_runners_get i (.sending f) w3 _ h1w3
  · rw [setPC_inst]
    exact hs3
  · rw [setPC_inst]
    exact ht3
  · rw [setPC_inst]
    exact hf3

/-- The set-up of an accepted start whose slice capacity the allocator accepts puts the
runner in its loop, alone with fresh metrics. -/
theorem setup_loopInv (lib : Library) (i : Nat) (p : AttackParams) (w : World)
    (hr : w.runners[i]? = some { params := p, pc := .accepted })
    (hst : w.inst.status = AttackStatusCodeInProgress) (hc : w.inst.CompletedRequests = 0)
    (hcap : ¬ (wrapInt64 (p.requestsPerSecond * p.duration) < 0 ∨
      lib.MaxSliceCap < wrapInt64 (p.requestsPerSecond * p.duration))) :
    ∃ w1 : World, step lib (.runner i) w = .ok w1 ∧ LoopInv i p w.attackers [] w1 := by
  have hstep : step lib (.runner i) w =
      .ok (setPC i (.attacking w.attackers [])
        { w with
          attackers := w.attackers + 1
          inst := { w.inst with
            Metrics := some { added := [], closed := false }
            CurrentAttacker := some w.attackers } }) := by
    simp only [step, runnerStep, hr, startAttackSetup, hcap, if_false, Outcome.bind,
      vegetaAttack.setCurrentAttacker]
  refine ⟨_, hstep, ?_, ?_, ?_, ?_⟩
  · exact setPC_runners_get i (.attacking w.attackers [])
      { w with
        attackers := w.attackers + 1
        inst := { w.inst with
          Metrics := some { added := [], closed := false }
          CurrentAttacker := some w.attackers } }
      { params := p, pc := .accepted } hr
  · rw [setPC_inst]
  · rw [setPC_inst]
    exact hst
  · rw [setPC_inst]
    exact hc

/-- C12 (amended): take a runner in its result loop right after the set-up of its accepted
start (status InProgress, fresh metrics, nothing consumed), and any trace made of the
outcomes it receives and of events of the other goroutines that are neither the handling
of a cancellation request nor a step of another `startAttack` invocation. The loop
consumes every outcome offered. After every such trace that completes with `k < 2^32`
outcomes consumed, `CompletedRequests` is `k`, `TotalRequests` is what it was at the start
of the loop and the status is InProgress; if the stream ends there, the finalization
completes, the status is Completed and the summary handed to the coordinator loop has
`RequestsCompleted = k`, `TotalRequests = rate * duration mod 2^32` and `Status`
"Completed". -/
theorem resultLoop_counts (lib : Library) (i a : Nat) (p : AttackParams) (w : World)
    (h : LoopInv i p a [] w) :
    (∀ rs : List vegeta.Result, ∃ w1 : World, run lib (rs.map (Event.result i)) w = .ok w1) ∧
    (∀ (es : List Event) (w1 : World), (∀ e ∈ es, ownOrQuiet i e = true) →
      run lib es w = .ok w1 → (resultsOf es).length < 2 ^ 32 →
        w1.inst.CompletedRequests = (resultsOf es).length ∧
        w1.inst.TotalRequests = w.inst.TotalRequests ∧
        w1.inst.status = AttackStatusCodeInProgress ∧
        ∃ (w2 : World) (f : LoadTestStatus),
          step lib (.streamEnd i) w1 = .ok w2 ∧
          w2.runners[i]? = some { params := p, pc := .sending f } ∧
          w2.inst.status = AttackStatusCodeCompleted ∧
          w2.inst.TotalRequests = w.inst.TotalRequests ∧
          f.RequestsCompleted = (resultsOf es).length ∧
          f.TotalRequests = ((p.requestsPerSecond * p.duration) % 2 ^ 32).toNat ∧
          f.Status = "Completed") := by
  refine ⟨fun rs => run_results_ok lib i p a rs [] w h, ?_⟩
  intro es w1 hall hrun hlen
  obtain ⟨hinv, htot⟩ := run_loopInv lib i p a es [] w w1 h hall hrun
  rw [List.nil_append] at hinv
  obtain ⟨w2, f, hstep, hr2, hs2, ht2, _, hrc, htr, hsm⟩ :=
    streamEnd_loopInv lib i p a (resultsOf es) w1 hinv
  have hmod : (resultsOf es).length % 2 ^ 32 = (resultsOf es).length := Nat.mod_eq_of_lt hlen
  refine ⟨?_, htot, hinv.2.2.1, w2, f, hstep, hr2, hs2, ht2.trans htot, ?_, htr, hsm⟩
  · rw [hinv.2.2.2, hmod]
  · rw [hrc, hmod]

/-- Witness for C12 (amended): the first run of the process, right after its set-up. -/
theorem resultLoop_counts_witness :
    ∃ w : World,
      run sampleLibrary [.startAttack sampleParams, .runner 0, .runner 0, .runner 0]
        World.init = .ok w ∧
      LoopInv 0 sampleParams 0 [] w ∧
      (∀ rs : List vegeta.Result,
        ∃ w1 : World, run sampleLibrary (rs.map (Event.result 0)) w = .ok w1) ∧
      (∀ (es : List Event) (w1 : World), (∀ e ∈ es, ownOrQuiet 0 e = true) →
        run sampleLibrary es w = .ok w1 → (resultsOf es).length < 2 ^ 32 →
          w1.inst.CompletedRequests = (resultsOf es).length ∧
          w1.inst.TotalRequests = w.inst.TotalRequests ∧
          w1.inst.status = AttackStatusCodeInProgress ∧
          ∃ (w2 : World) (f : LoadTestStatus),
            step sampleLibrary (.streamEnd 0) w1 = .ok w2 ∧
            w2.runners[0]? = some { params := sampleParams, pc := .sending f } ∧
            w2.inst.status = AttackStatusCodeCompleted ∧
            w2.inst.TotalRequests = w.inst.TotalRequests ∧
            f.RequestsCompleted = (resultsOf es).length ∧
            f.TotalRequests =
              ((sampleParams.requestsPerSecond * sampleParams.duration) % 2 ^ 32).toNat ∧
            f.Status = "Completed") :=
  ⟨_, rfl, by decide, resultLoop_counts sampleLibrary 0 0 sampleParams _ (by decide)⟩

/-! ## The success rate of the summary (vegeta.go 266) -/

theorem roundHalfEven_sub_le (q : ℚ) : |(roundHalfEven q : ℚ) - q| ≤ 1 / 2 := by
  have h1 := Int.floor_le q
  have h2 := Int.lt_floor_add_one q
  unfold roundHalfEven
  simp only
  split
  · rw [abs_le]; constructor <;> linarith
  · split
    · rw [abs_le]; push_cast; constructor <;> linarith
    · have heq : q - ⌊q⌋ = 1 / 2 := le_antisymm (not_lt.mp ‹_›) (not_lt.mp ‹_›)
      split
      · rw [abs_le]; constructor <;> linarith
      · rw [abs_le]; push_cast; constructor <;> linarith

theorem roundHalfEven_nonneg (q : ℚ) (h : 0 ≤ q) : 0 ≤ roundHalfEven q := by
  have hf : 0 ≤ ⌊q⌋ := Int.floor_nonneg.mpr h
  unfold roundHalfEven
  simp only
  split
  · exact hf
  · split
    · omega
    · split
      · exact hf
      · omega

theorem float64Ulp_pos (a : ℚ) : 0 < float64Ulp a := by
  unfold float64Ulp
  positivity

/-- Up to 100 the unit in the last place is at most `2^-46`. -/
theorem float64Ulp_le (a : ℚ) (h0 : 0 < a) (h1 : a ≤ 100) : float64Ulp a ≤ 1 / 2 ^ 46 := by
  have hlog : (2 : ℚ) ^ Int.log 2 a ≤ a := by
    have := Int.zpow_log_le_self (R := ℚ) (b := 2) (r := a) (by norm_num) h0
    simpa using this
  have hlt : (2 : ℚ) ^ Int.log 2 a < 2 ^ (7 : ℤ) := by
    have : (2 : ℚ) ^ (7 : ℤ) = 128 := by norm_num
    rw [this]
    linarith
  have he : Int.log 2 a < 7 := (zpow_lt_zpow_iff_right₀ (by norm_num : (1 : ℚ) < 2)).mp hlt
  have hmax : max (Int.log 2 a - 52) (-1074) ≤ -46 := by omega
  unfold float64Ulp
  have : (2 : ℚ) ^ (max (Int.log 2 a - 52) (-1074)) ≤ 2 ^ (-46 : ℤ) :=
    zpow_le_zpow_right₀ (by norm_num) hmax
  calc (2 : ℚ) ^ (max (Int.log 2 a - 52) (-1074)) ≤ 2 ^ (-46 : ℤ) := this
    _ = 1 / 2 ^ 46 := by norm_num

/-- An exact result between 0 and 100 is rounded to a finite, non-negative `float64` at a
distance of at most `2^-47`. -/
theorem float64Round_small (q : ℚ) (h0 : 0 ≤ q) (h1 : q ≤ 100) :
    ∃ x : ℚ, float64Round q = .finite x ∧ 0 ≤ x ∧ |x - q| ≤ 1 / 2 ^ 47 := by
  by_cases hq : q = 0
  · subst hq
    exact ⟨0, by simp [float64Round], le_refl 0, by norm_num⟩
  · have hpos : 0 < q := lt_of_le_of_ne h0 (Ne.symm hq)
    have habs : |q| = q := abs_of_pos hpos
    have hu := float64Ulp_pos q
    have hule := float64Ulp_le q hpos h1
    have hr := roundHalfEven_sub_le (q / float64Ulp q)
    have hn := roundHalfEven_nonneg (q / float64Ulp q) (div_nonneg h0 hu.le)
    have hn1 : (0 : ℚ) ≤ (roundHalfEven (q / float64Ulp q) : ℚ) := by exact_mod_cast hn
    have herr : |(roundHalfEven (q / float64Ulp q) : ℚ) * float64Ulp q - q| ≤ 1 / 2 ^ 47 := by
      have hfac : (roundHalfEven (q / float64Ulp q) : ℚ) * float64Ulp q - q
          = ((roundHalfEven (q / float64Ulp q) : ℚ) - q / float64Ulp q) * float64Ulp q := by
        field_simp
      rw [hfac, abs_mul, abs_of_pos hu]
      calc |(roundHalfEven (q / float64Ulp q) : ℚ) - q / float64Ulp q| * float64Ulp q
          ≤ 1 / 2 * (1 / 2 ^ 46) := mul_le_mul hr hule hu.le (by norm_num)
        _ = 1 / 2 ^ 47 := by norm_num
    have hsmall : ¬ (2 : ℚ) ^ 1024 ≤ (roundHalfEven (q / float64Ulp q) : ℚ) * float64Ulp q := by
      have hle := (abs_le.mp herr).2
      have h101 : (roundHalfEven (q / float64Ulp q) : ℚ) * float64Ulp q ≤ 101 := by
        have : (1 : ℚ) / 2 ^ 47 ≤ 1 := by norm_num
        linarith
      have hbig : (101 : ℚ) < 2 ^ 1024 := by
        calc (101 : ℚ) < 2 ^ 7 := by norm_num
          _ ≤ 2 ^ 1024 := pow_le_pow_right₀ (by norm_num) (by norm_num)
      linarith
    refine ⟨(roundHalfEven (q / float64Ulp q) : ℚ) * float64Ulp q, ?_, ?_, herr⟩
    · simp only [float64Round, hq, if_false, habs, hsmall, not_lt.mpr h0]
    · exact mul_nonneg hn1 hu.le

theorem fixedDigits_two (n : Nat) :
    fixedDigits n 2 =
      toString (n / 100) ++ "." ++
        String.mk [Nat.digitChar (n / 10 % 10), Nat.digitChar (n % 10)] := by
  simp [fixedDigits, List.range_succ, String.append_assoc]

/-- The summary of a finalization carries the string of line 266 for the success ratio of
the closed metrics. -/
theorem startAttackFinalize_successRate (lib : Library) (p : AttackParams)
    (rs : List vegeta.Result) (w : World) (m : vegeta.Metrics)
    (hm : w.inst.Metrics = some m) :
    ∃ (f : LoadTestStatus) (w1 : World),
      startAttackFinalize lib p rs w = .ok (f, w1) ∧
      f.SuccessRate = strconv.FormatFloat ((lib.Success m.added).mul (.finite 100)) 2 := by
  by_cases hst : w.inst.getStatus = AttackStatusCodeInProgress
  · have hm1 : (w.inst.setStatus AttackStatusCodeCompleted).Metrics = some m := hm
    unfold startAttackFinalize
    simp only [hst, if_true, hm1]
    exact ⟨_, _, rfl, rfl⟩
  · unfold startAttackFinalize
    simp only [hst, if_false, hm]
    exact ⟨_, _, rfl, rfl⟩

set_option maxRecDepth 100000 in
/-- C16: for every success ratio `s` with `0 ≤ s ≤ 1`, the `float64` product `s * 100` of
line 266 is a finite number `x` at most `2^-47` away from the exact product, and the
`SuccessRate` that the finalization puts in the summary is `x` in fixed-point decimal with
exactly two digits after the decimal point: the numeral of `n / 100` for an integer
`n ≤ 10000` at most half a hundredth away from `x`. The `float64` nearest to 0.985 gives
"98.50". -/
theorem successRate_two_decimals (s : ℚ) (h0 : 0 ≤ s) (h1 : s ≤ 1) :
    (∃ (x : ℚ) (n : ℕ),
      (Float64.finite s).mul (.finite 100) = .finite x ∧
      |x - s * 100| ≤ 1 / 2 ^ 47 ∧
      n ≤ 10000 ∧
      |(n : ℚ) / 100 - x| ≤ 1 / 200 ∧
      strconv.FormatFloat ((Float64.finite s).mul (.finite 100)) 2 =
        toString (n / 100) ++ "." ++
          String.mk [Nat.digitChar (n / 10 % 10), Nat.digitChar (n % 10)]) ∧
    (∀ (lib : Library) (p : AttackParams) (rs : List vegeta.Result) (w : World)
        (m : vegeta.Metrics),
      w.inst.Metrics = some m → lib.Success m.added = .finite s →
        ∃ (f : LoadTestStatus) (w1 : World),
          startAttackFinalize lib p rs w = .ok (f, w1) ∧
          f.SuccessRate = strconv.FormatFloat ((Float64.finite s).mul (.finite 100)) 2) ∧
    float64Round (985 / 1000) = .finite (8872091265919877 / 9007199254740992) ∧
    strconv.FormatFloat ((float64Round (985 / 1000)).mul (.finite 100)) 2 = "98.50" := by
  refine ⟨?_, ?_, by decide!, by decide!⟩
  · obtain ⟨x, hx, hx0, hxe⟩ := float64Round_small (s * 100) (by positivity) (by linarith)
    have hr := roundHalfEven_sub_le (x * 100)
    have hn := roundHalfEven_nonneg (x * 100) (by positivity)
    have hcast : ((roundHalfEven (x * 100)).toNat : ℤ) = roundHalfEven (x * 100) :=
      Int.toNat_of_nonneg hn
    have hcastq : (((roundHalfEven (x * 100)).toNat : ℕ) : ℚ)
        = (roundHalfEven (x * 100) : ℚ) := by
      exact_mod_cast hcast
    have hxle : x ≤ 100 + 1 / 2 ^ 47 := by
      have := (abs_le.mp hxe).2
      linarith
    refine ⟨x, (roundHalfEven (x * 100)).toNat, hx, hxe, ?_, ?_, ?_⟩
    · have h2 : (roundHalfEven (x * 100) : ℚ) < 10001 := by
        have := (abs_le.mp hr).2
        have h47 : (1 : ℚ) / 2 ^ 47 ≤ 1 / 1000 := by norm_num
        linarith
      have h3 : roundHalfEven (x * 100) < 10001 := by exact_mod_cast h2
      omega
    · rw [hcastq, abs_le]
      have := abs_le.mp hr
      constructor <;> linarith [this.1, this.2]
    · show strconv.FormatFloat (float64Round (s * 100)) 2 = _
      rw [hx]
      simp only [strconv.FormatFloat, not_lt.mpr hx0, if_false, abs_of_nonneg hx0]
      rw [show (10 : ℚ) ^ 2 = 100 by norm_num, fixedDigits_two]
      simp
  · intro lib p rs w m hm hs
    obtain ⟨f, w1, hfin, hrate⟩ := startAttackFinalize_successRate lib p rs w m hm
    exact ⟨f, w1, hfin, by rw [hrate, hs]⟩

/-- Witness for C16: the success ratio one half. -/
theorem successRate_two_decimals_witness :
    ((0 : ℚ) ≤ 1 / 2 ∧ (1 : ℚ) / 2 ≤ 1) ∧
    (∃ (x : ℚ) (n : ℕ),
      (Float64.finite (1 / 2)).mul (.finite 100) = .finite x ∧
      |x - 1 / 2 * 100| ≤ 1 / 2 ^ 47 ∧
      n ≤ 10000 ∧
      |(n : ℚ) / 100 - x| ≤ 1 / 200 ∧
      strconv.FormatFloat ((Float64.finite (1 / 2)).mul (.finite 100)) 2 =
        toString (n / 100) ++ "." ++
          String.mk [Nat.digitChar (n / 10 % 10), Nat.digitChar (n % 10)]) ∧
    strconv.FormatFloat ((Float64.finite (1 / 2)).mul (.finite 100)) 2 = "50.00" :=
  ⟨⟨by norm_num, by norm_num⟩,
   (successRate_two_decimals (1 / 2) (by norm_num) (by norm_num)).1,
   by decide!⟩

/-! ## Connection read half -/

/-- C7 (evaluation at the failing input): with status NotStarted the read half forwards
"getStatus" (and "cancelTest") to the coordinator loop; the status read at line 101 has no
effect on `okToSend`. -/
theorem readPump_forwards_when_not_inProgress :
    World.init.inst.getStatus = AttackStatusCodeNotStarted ∧
    ReadPump.okToSend AttackStatusCodeNotStarted "getStatus" = true ∧
    ReadPump.forward World.init "getStatus" = some "getStatus" ∧
    ReadPump.forward World.init "cancelTest" = some "cancelTest" := by
  decide

end VegetaUI

namespace Casper

/-! ## The manifest scan -/

theorem outstandingTokenCount_eq : outstandingTokenCount = 7 := by decide

theorem startsWith_iff (b sub : List Char) :
    startsWith b sub = true ↔ ∃ suf, b = sub ++ suf := by
  induction b generalizing sub with
  | nil =>
    cases sub with
    | nil => simp [startsWith]
    | cons d ds => simp [startsWith]
  | cons c cs ih =>
    cases sub with
    | nil => simp [startsWith]
    | cons d ds =>
      simp only [startsWith, Bool.and_eq_true, beq_iff_eq, ih ds, List.cons_append,
        List.cons.injEq]
      constructor
      · rintro ⟨hcd, suf, hs⟩
        exact ⟨suf, hcd, hs⟩
      · rintro ⟨suf, hcd, hs⟩
        exact ⟨hcd, suf, hs⟩

/-- The function `bytesContains` decides occurrence as a contiguous part. -/
theorem bytesContains_iff (b sub : List Char) :
    bytesContains b sub = true ↔ ∃ pre suf, b = pre ++ sub ++ suf := by
  induction b with
  | nil =>
    simp only [bytesContains, List.isEmpty_iff]
    constructor
    · intro h
      exact ⟨[], [], by simp [h]⟩
    · rintro ⟨pre, suf, h⟩
      have h1 := congrArg List.length h
      simp only [List.length_nil, List.length_append] at h1
      exact List.length_eq_zero.mp (by omega)
  | cons c cs ih =>
    simp only [bytesContains, Bool.or_eq_true, startsWith_iff, ih]
    constructor
    · rintro (⟨suf, h⟩ | ⟨pre, suf, h⟩)
      · exact ⟨[], suf, by simpa using h⟩
      · exact ⟨c :: pre, suf, by simp [h]⟩
    · rintro ⟨pre, suf, h⟩
      cases pre with
      | nil => exact Or.inl ⟨suf, by simpa using h⟩
      | cons d pre =>
        simp only [List.cons_append, List.cons.injEq] at h
        exact Or.inr ⟨pre, suf, h.2⟩

/-- A character that does not occur in `sub` can be appended to the text without changing
whether the non-empty `sub` occurs in it. -/
theorem bytesContains_snoc (l sub : List Char) (c : Char) (hc : c ∉ sub) (hne : sub ≠ []) :
    bytesContains (l ++ [c]) sub = bytesContains l sub := by
  rw [Bool.eq_iff_iff, bytesContains_iff, bytesContains_iff]
  constructor
  · rintro ⟨pre, suf, h⟩
    rcases List.eq_nil_or_concat suf with hs | ⟨suf1, x, hs⟩
    · subst hs
      rcases List.eq_nil_or_concat sub with hsub | ⟨sub1, y, hsub⟩
      · exact absurd hsub hne
      · subst hsub
        have h1 : l ++ [c] = (pre ++ sub1) ++ [y] := by simpa using h
        have h2 := List.append_inj' h1 rfl
        have hy : c = y := by simpa using h2.2
        exact absurd (by simp [hy]) hc
    · subst hs
      have h1 : l ++ [c] = (pre ++ sub ++ suf1) ++ [x] := by simpa using h
      have h2 := List.append_inj' h1 rfl
      exact ⟨pre, suf1, h2.1⟩
  · rintro ⟨pre, suf, h⟩
    exact ⟨pre, suf ++ [c], by simp [h]⟩

theorem manifest_contains_line (line v : String) (hv : v ∈ ManifestVariables) :
    bytesContains (line ++ "\n").data v.data = bytesContains line.data v.data := by
  have hdata : (line ++ "\n").data = line.data ++ [Char.ofNat 10] := by
    rw [String.data_append]
  rw [hdata]
  simp only [ManifestVariables, List.mem_cons, List.mem_singleton, List.not_mem_nil,
    or_false] at hv
  rcases hv with h | h | h <;> subst h <;>
    exact bytesContains_snoc _ _ _ (by decide) (by decide)

/-- The inner loop sets in the bitmask the flags of the variables that the line contains
and keeps the flags that are set. -/
theorem scanManifestVariables_mask (currentLine : String) (b0 b1 b2 : Bool) :
    scanManifestVariables currentLine 0 ManifestVariables (maskOf b0 b1 b2) =
      maskOf (b0 || bytesContains currentLine.data "MANIFEST_SCRIPT_ID".data)
             (b1 || bytesContains currentLine.data "MANIFEST_SCRIPT_NAME".data)
             (b2 || bytesContains currentLine.data "MANIFEST_SCRIPT_DESC".data) := by
  simp only [ManifestVariables, scanManifestVariables]
  generalize bytesContains currentLine.data "MANIFEST_SCRIPT_ID".data = c0
  generalize bytesContains currentLine.data "MANIFEST_SCRIPT_NAME".data = c1
  generalize bytesContains currentLine.data "MANIFEST_SCRIPT_DESC".data = c2
  cases b0 <;> cases b1 <;> cases b2 <;> cases c0 <;> cases c1 <;> cases c2 <;> rfl

theorem maskOf_le (b0 b1 b2 : Bool) : maskOf b0 b1 b2 ≤ 7 := by
  cases b0 <;> cases b1 <;> cases b2 <;> decide

theorem maskOf_complete (b0 b1 b2 : Bool) :
    7 ≤ maskOf b0 b1 b2 ↔ (b0 = true ∧ b1 = true ∧ b2 = true) := by
  cases b0 <;> cases b1 <;> cases b2 <;> decide

theorem maskOf_testBit (b0 b1 b2 : Bool) :
    (maskOf b0 b1 b2).testBit 0 = b0 ∧ (maskOf b0 b1 b2).testBit 1 = b1 ∧
    (maskOf b0 b1 b2).testBit 2 = b2 := by
  cases b0 <;> cases b1 <;> cases b2 <;> decide

/-- One iteration of the scan loop on the bitmask. -/
theorem scanLine_mask (s : ScanState) (line : String) (b0 b1 b2 : Bool)
    (hs : s.manifestTokenCount = maskOf b0 b1 b2) :
    (scanLine s line).manifestTokenCount =
      maskOf (b0 || bytesContains line.data "MANIFEST_SCRIPT_ID".data)
             (b1 || bytesContains line.data "MANIFEST_SCRIPT_NAME".data)
             (b2 || bytesContains line.data "MANIFEST_SCRIPT_DESC".data) := by
  unfold scanLine
  simp only [outstandingTokenCount_eq, hs, ge_iff_le]
  split
  · rename_i hfull
    obtain ⟨h0, h1, h2⟩ := (maskOf_complete b0 b1 b2).mp hfull
    subst h0 h1 h2
    simp [hs]
  · rw [scanManifestVariables_mask,
      manifest_contains_line line "MANIFEST_SCRIPT_ID" (by decide),
      manifest_contains_line line "MANIFEST_SCRIPT_NAME" (by decide),
      manifest_contains_line line "MANIFEST_SCRIPT_DESC" (by decide)]

theorem foldl_scanLine_mask (lines : List String) :
    ∀ (s : ScanState) (b0 b1 b2 : Bool), s.manifestTokenCount = maskOf b0 b1 b2 →
      (lines.foldl scanLine s).manifestTokenCount =
        maskOf (b0 || seenIn lines "MANIFEST_SCRIPT_ID")
               (b1 || seenIn lines "MANIFEST_SCRIPT_NAME")
               (b2 || seenIn lines "MANIFEST_SCRIPT_DESC") := by
  induction lines with
  | nil =>
    intro s b0 b1 b2 hs
    simpa [seenIn] using hs
  | cons l ls ih =>
    intro s b0 b1 b2 hs
    rw [List.foldl_cons, ih (scanLine s l) _ _ _ (scanLine_mask s l b0 b1 b2 hs)]
    simp [seenIn, Bool.or_assoc]

/-- The bitmask after the scan of `lines` has exactly the flags of the variables that
occur in them. -/
theorem scanLines_mask (lines : List String) :
    (scanLines lines).manifestTokenCount =
      maskOf (seenIn lines "MANIFEST_SCRIPT_ID") (seenIn lines "MANIFEST_SCRIPT_NAME")
             (seenIn lines "MANIFEST_SCRIPT_DESC") := by
  have := foldl_scanLine_mask lines { manifestTokenCount := 0, fileContents := "" }
    false false false rfl
  simpa [scanLines] using this

theorem seenIn_iff (lines : List String) (v : String) :
    seenIn lines v = true ↔ ∃ l ∈ lines, occursIn v l := by
  simp only [seenIn, List.any_eq_true, bytesContains_iff, occursIn]

/-- C18: for every sequence of lines delivered by the scanner, the manifest check passes
(the function does not return with "Incomplete manifest definition") if and only if each
of the three manifest variable names occurs as a substring of at least one line; and after
any number `k` of lines scanned, the bitmask `manifestTokenCount` is at most 7 and its bit
`i` is set exactly when the name with index `i` occurs in one of the first `k` lines. -/
theorem manifestCheck_iff (lines : List String) :
    (manifestCheck lines = true ↔ ∀ v ∈ ManifestVariables, ∃ l ∈ lines, occursIn v l) ∧
    (∀ k : Nat,
      (scanLines (lines.take k)).manifestTokenCount ≤ 7 ∧
      ∀ (i : Nat) (v : String), ManifestVariables[i]? = some v →
        ((scanLines (lines.take k)).manifestTokenCount.testBit i = true ↔
          ∃ l ∈ lines.take k, occursIn v l)) := by
  constructor
  · have hcheck : manifestCheck lines = true ↔ 7 ≤ (scanLines lines).manifestTokenCount := by
      simp [manifestCheck, outstandingTokenCount_eq]
    rw [hcheck, scanLines_mask, maskOf_complete, seenIn_iff, seenIn_iff, seenIn_iff]
    simp [ManifestVariables]
  · intro k
    rw [scanLines_mask]
    refine ⟨maskOf_le _ _ _, ?_⟩
    intro i v hv
    obtain ⟨h0, h1, h2⟩ := maskOf_testBit (seenIn (lines.take k) "MANIFEST_SCRIPT_ID")
      (seenIn (lines.take k) "MANIFEST_SCRIPT_NAME")
      (seenIn (lines.take k) "MANIFEST_SCRIPT_DESC")
    match i, hv with
    | 0, hv =>
      have hv0 : v = "MANIFEST_SCRIPT_ID" := by
        simpa [ManifestVariables] using hv.symm
      subst hv0
      rw [h0, seenIn_iff]
    | 1, hv =>
      have hv1 : v = "MANIFEST_SCRIPT_NAME" := by
        simpa [ManifestVariables] using hv.symm
      subst hv1
      rw [h1, seenIn_iff]
    | 2, hv =>
      have hv2 : v = "MANIFEST_SCRIPT_DESC" := by
        simpa [ManifestVariables] using hv.symm
      subst hv2
      rw [h2, seenIn_iff]
    | n + 3, hv =>
      simp [ManifestVariables] at hv

/-- The scan of the example script: the check passes after the third line, and the
bitmask goes through 0, 3 and 7. -/
theorem sampleScript_scan :
    manifestCheck sampleScript = true ∧
    (List.range 5).map (fun k => (scanLines (sampleScript.take k)).manifestTokenCount)
      = [0, 0, 3, 7, 7] ∧
    manifestCheck (sampleScript.take 2) = false := by
  decide

end Casper
